import Mathlib

/-!
Verification of the entity/component storage core of the `factory` repository
(`crates/ecs`).  The Rust sources are shallowly embedded: `usize` entity ids and
`TypeId` tokens become `Nat`, the `u128` bitmasks become `Nat` with the one
overflowing operation (`next_bit *= 2`) taken modulo `2 ^ 128` (release-build
wrapping semantics; debug builds would abort at the same point), Rust `HashMap`s
become functions to `Option` (the source never iterates over a map, only
`get`/`insert`/`remove`/`contains_key`), and operations that can panic return
`Except String` with `.error` marking the panic.
-/

namespace ECS

/-- Entity identifiers (Rust `usize`). -/
abbrev EntityId := Nat

/-- Runtime type tokens (Rust `std::any::TypeId`): opaque comparable identities. -/
abbrev TypeId := Nat

/-- Component bitmasks (Rust `u128`). -/
abbrev Mask := Nat

/-- Number of values of `u128`. -/
def u128Size : Nat := 2 ^ 128

/-- `HashMap::insert`. -/
def mapInsert (m : Nat → Option β) (k : Nat) (v : β) : Nat → Option β :=
  fun x => if x = k then some v else m x

/-- `HashMap::remove`, forgetting the returned value. -/
def mapRemove (m : Nat → Option β) (k : Nat) : Nat → Option β :=
  fun x => if x = k then none else m x

/-- In-place update of one slot of a `Vec`, as in `self.entities[index].reset()`. -/
def listModify (l : List α) (i : Nat) (f : α → α) : List α :=
  match l[i]? with
  | some a => l.set i (f a)
  | none => l

/-- `src/crates/ecs/src/entity.rs`: `Entity { is_alive: bool }`. -/
structure Entity where
  is_alive : Bool
deriving DecidableEq, Repr

def Entity.new : Entity := ⟨true⟩

def Entity.kill (_ : Entity) : Entity := ⟨false⟩

def Entity.reset (_ : Entity) : Entity := ⟨true⟩

/-- `src/crates/ecs/src/entity_manager.rs`: struct `Entities` — the id
allocator with slot reuse. -/
structure Entities where
  entities : List Entity
  available_ids : List EntityId
deriving DecidableEq, Repr

def Entities.new : Entities := ⟨[], []⟩

/-- `entity_id < self.entities.len() && self.entities[entity_id].is_alive()`. -/
def Entities.has (s : Entities) (entity_id : EntityId) : Bool :=
  decide (entity_id < s.entities.length) &&
    (match s.entities[entity_id]? with
     | some ent => ent.is_alive
     | none => false)

/-- `Entities::create`: pop a recycled id from the end of `available_ids`
(resetting its record to alive), else push a fresh alive record. -/
def Entities.create (s : Entities) : EntityId × Entities :=
  match s.available_ids.getLast? with
  | some index =>
      (index, { entities := listModify s.entities index Entity.reset,
                available_ids := s.available_ids.dropLast })
  | none =>
      (s.entities.length, { s with entities := s.entities ++ [Entity.new] })

/-- `Entities::remove`: no-op unless alive; otherwise kill the record and push
the id onto the free list. -/
def Entities.remove (s : Entities) (entity_id : EntityId) : Entities :=
  if s.has entity_id then
    { entities := listModify s.entities entity_id Entity.kill,
      available_ids := s.available_ids ++ [entity_id] }
  else s

/-- `src/crates/ecs/src/component_manager.rs`: `ComponentManager<T>` — the
sparse-set pool.  All pools of the embedding store one fixed value type `α`;
the claims under study never depend on two pools storing different value
types, only on the two type TOKENS being equal or different. -/
structure ComponentManager (α : Type) where
  components : List α
  entities_ids : List EntityId
  entity_to_component_index : EntityId → Option Nat

def ComponentManager.new : ComponentManager α :=
  { components := [], entities_ids := [], entity_to_component_index := fun _ => none }

/-- `self.entity_to_component_index.contains_key(&entity_id)`. -/
def ComponentManager.has (m : ComponentManager α) (entity_id : EntityId) : Bool :=
  (m.entity_to_component_index entity_id).isSome

/-- `ComponentManager::add`: first write wins — a duplicate add returns
without touching anything. -/
def ComponentManager.add (m : ComponentManager α) (entity_id : EntityId) (component : α) :
    ComponentManager α :=
  if m.has entity_id then m
  else
    { components := m.components ++ [component],
      entities_ids := m.entities_ids ++ [entity_id],
      entity_to_component_index :=
        mapInsert m.entity_to_component_index entity_id
          ((m.components ++ [component]).length - 1) }

/-- Rust `Vec::swap_remove(i)`: move the last element into slot `i` and shrink
by one.  (On an empty vector the source would abort; that branch is
unreachable in every use below because it is guarded by `has`.) -/
def swapRemove (l : List α) (i : Nat) : List α :=
  match l.getLast? with
  | some last => (l.set i last).dropLast
  | none => l

/-- `ComponentManager::remove`: no-op if absent; otherwise reassign the sparse
slot of the owner of the last dense slot to the vacated index, swap-remove
both dense arrays, and erase the removed id from the sparse map.  The
`_, _ => m` arm covers the `has` = false early return and the (unreachable
under the pool invariant) abort of `entities_ids.last().unwrap()` on an empty
dense array. -/
def ComponentManager.remove (m : ComponentManager α) (entity_id : EntityId) :
    ComponentManager α :=
  match m.entity_to_component_index entity_id, m.entities_ids.getLast? with
  | some component_index, some lastOwner =>
      { components := swapRemove m.components component_index,
        entities_ids := swapRemove m.entities_ids component_index,
        entity_to_component_index :=
          mapRemove
            (mapInsert (mapRemove m.entity_to_component_index entity_id) lastOwner
              component_index)
            entity_id }
  | _, _ => m

/-- `ComponentManager::borrow_component_for_entity`: `None` if absent, else the
value at the dense slot.  (The source indexes the dense array directly; under
the pool invariant the index is always in range, so `[-]?` agrees with it.) -/
def ComponentManager.borrow_component_for_entity (m : ComponentManager α)
    (entity_id : EntityId) : Option α :=
  match m.entity_to_component_index entity_id with
  | some component_index => m.components[component_index]?
  | none => none

/-- `ComponentManager::borrow_component_mut`: same lookup as the immutable
borrow; the embedding returns the looked-up value. -/
def ComponentManager.borrow_component_mut (m : ComponentManager α) (entity_id : EntityId) :
    Option α :=
  match m.entity_to_component_index entity_id with
  | some component_index => m.components[component_index]?
  | none => none

/-- `ComponentManager::borrow_components`. -/
def ComponentManager.borrow_components (m : ComponentManager α) : List α :=
  m.components

/-- `src/crates/ecs/src/query_manager.rs`: `QueryManager`.  The `query_cache`
field is scaffolded but never read or written (both uses are commented out in
the source), so it stays at its initial value. -/
structure QueryManager where
  query_entities : List (Mask × List EntityId)
  entities_query : EntityId → Option Mask
  bit_mapping : TypeId → Option Mask
  reusable_bits : List Mask
  next_bit : Mask
  query_cache : Mask → Option (Option (List EntityId))

def QueryManager.new : QueryManager :=
  { query_entities := [], entities_query := fun _ => none, bit_mapping := fun _ => none,
    reusable_bits := [], next_bit := 1, query_cache := fun _ => none }

/-- `QueryManager::register_component`: take the FRONT of `reusable_bits`
(`Vec::remove(0)`) if non-empty, else take `next_bit` and double it.  The
doubling is the one `u128` operation of the source that can overflow; release
builds wrap (modelled by the explicit `% u128Size`), debug builds abort
there. -/
def QueryManager.register_component (qm : QueryManager) (t : TypeId) : QueryManager :=
  match qm.reusable_bits with
  | bit :: rest =>
      { qm with bit_mapping := mapInsert qm.bit_mapping t bit, reusable_bits := rest }
  | [] =>
      { qm with bit_mapping := mapInsert qm.bit_mapping t qm.next_bit,
                next_bit := qm.next_bit * 2 % u128Size }

/-- `QueryManager::unregister_component`: `none` models the panic of
`self.bit_mapping.remove(&type_id).unwrap()` on an unregistered type. -/
def QueryManager.unregister_component (qm : QueryManager) (t : TypeId) : Option QueryManager :=
  match qm.bit_mapping t with
  | some bit =>
      some { qm with bit_mapping := mapRemove qm.bit_mapping t,
                     reusable_bits := qm.reusable_bits ++ [bit] }
  | none => none

/-- `QueryManager::get_bit_for_component`. -/
def QueryManager.get_bit_for_component (qm : QueryManager) (t : TypeId) : Option Mask :=
  qm.bit_mapping t

/-- `QueryManager::get_bitmask_for_entity`: recorded mask, `0` if absent. -/
def QueryManager.get_bitmask_for_entity (qm : QueryManager) (entity_id : EntityId) : Mask :=
  match qm.entities_query entity_id with
  | some bitmask => bitmask
  | none => 0

/-- The group-list edit of `QueryManager::remove_entity`: locate the first
group whose entity list contains the id (`iter().position(..)`) and `retain`
every other id in that group. -/
def removeFromGroups (groups : List (Mask × List EntityId)) (entity_id : EntityId) :
    List (Mask × List EntityId) :=
  match groups with
  | [] => []
  | g :: rest =>
      if g.2.contains entity_id then
        (g.1, g.2.filter (fun id => id ≠ entity_id)) :: rest
      else g :: removeFromGroups rest entity_id

/-- `QueryManager::remove_entity`. -/
def QueryManager.remove_entity (qm : QueryManager) (entity_id : EntityId) : QueryManager :=
  { qm with query_entities := removeFromGroups qm.query_entities entity_id,
            entities_query := mapRemove qm.entities_query entity_id }

/-- The group-list edit of `QueryManager::add_entity`: push onto the first
group with exactly the given mask, else push a fresh group at the end. -/
def addToGroups (groups : List (Mask × List EntityId)) (entity_id : EntityId)
    (entity_bitmask : Mask) : List (Mask × List EntityId) :=
  match groups with
  | [] => [(entity_bitmask, [entity_id])]
  | g :: rest =>
      if g.1 = entity_bitmask then (g.1, g.2 ++ [entity_id]) :: rest
      else g :: addToGroups rest entity_id entity_bitmask

/-- `QueryManager::add_entity`. -/
def QueryManager.add_entity (qm : QueryManager) (entity_id : EntityId)
    (entity_bitmask : Mask) : QueryManager :=
  { qm with query_entities := addToGroups qm.query_entities entity_id entity_bitmask,
            entities_query := mapInsert qm.entities_query entity_id entity_bitmask }

/-- `QueryManager::query`: concatenate, over every group whose mask is a
superset of the query mask, that group entity list. -/
def QueryManager.query (qm : QueryManager) (query_bitmask : Mask) :
    Option (List EntityId) :=
  some (((qm.query_entities.filter
      (fun g => decide (g.1 &&& query_bitmask = query_bitmask))).map Prod.snd).flatten)

/-- `src/crates/ecs/src/entity_manager.rs`: `EntityManager`, the storage
facade.  `components_managers` models `HashMap<TypeId, Box<dyn
ComponentManagerTrait>>`; since the source always stores the pool for `T`
under `TypeId::of::<T>()`, every checked downcast in the source succeeds, and
the embedding maps each token directly to its pool. -/
structure EntityManager (V : Type) where
  entities : Entities
  components_managers : TypeId → Option (ComponentManager V)
  query_manager : QueryManager

def EntityManager.new : EntityManager V :=
  { entities := Entities.new, components_managers := fun _ => none,
    query_manager := QueryManager.new }

def EntityManager.create_entity (em : EntityManager V) : EntityId × EntityManager V :=
  ((em.entities.create).1, { em with entities := (em.entities.create).2 })

def EntityManager.has_component_manager (em : EntityManager V) (t : TypeId) : Bool :=
  (em.components_managers t).isSome

/-- `EntityManager::register_component`: no-op if already registered, else
register a bit in the query manager and insert a fresh pool. -/
def EntityManager.register_component (em : EntityManager V) (t : TypeId) : EntityManager V :=
  if em.has_component_manager t then em
  else
    { em with query_manager := em.query_manager.register_component t,
              components_managers := mapInsert em.components_managers t ComponentManager.new }

/-- Results of facade operations: `.error` models a panic of the source. -/
def isFatal : Except String α → Bool
  | .error _ => true
  | .ok _ => false

/-- `EntityManager::borrow_component_for_entity` (the immutable getter): it
unconditionally unwraps the registry entry, so an unregistered type is a
panic. -/
def EntityManager.borrow_component_for_entity (em : EntityManager V) (t : TypeId)
    (entity_id : EntityId) : Except String (Option V) :=
  match em.components_managers t with
  | none => .error "called unwrap on a missing component manager"
  | some manager => .ok (manager.borrow_component_for_entity entity_id)

/-- `EntityManager::add_component_to_entity`: panic when unregistered; read the
old mask; drop the entity from its group; OR in the component bit; re-add to
the new group; then write into the pool. -/
def EntityManager.add_component_to_entity (em : EntityManager V) (t : TypeId)
    (entity_id : EntityId) (component : V) : Except String (EntityManager V) :=
  if em.has_component_manager t = false then
    .error "component manager not found for type"
  else
    let bitmask := em.query_manager.get_bitmask_for_entity entity_id
    let qm1 := em.query_manager.remove_entity entity_id
    match qm1.get_bit_for_component t with
    | none => .error "component not found for type"
    | some component_bitmask =>
        let qm2 := qm1.add_entity entity_id (bitmask ||| component_bitmask)
        match em.components_managers t with
        | none => .error "component manager not found for type"
        | some manager =>
            .ok { em with
                    query_manager := qm2,
                    components_managers :=
                      mapInsert em.components_managers t (manager.add entity_id component) }

/-- `EntityManager::query_entities`: `None` when the type is unregistered,
else the query for the component bit (the inner unwrap cannot fire in a state
built by `register_component`). -/
def EntityManager.query_entities (em : EntityManager V) (t : TypeId) :
    Except String (Option (List EntityId)) :=
  if em.has_component_manager t = false then .ok none
  else
    match em.query_manager.get_bit_for_component t with
    | none => .error "called unwrap on a missing component bit"
    | some component_query => .ok (em.query_manager.query component_query)

/-- `EntityManager::borrow_components_for_entity` (the mutable getter): an
early `None` when the type is unregistered, else the pool lookup. -/
def EntityManager.borrow_components_for_entity (em : EntityManager V) (t : TypeId)
    (entity : EntityId) : Except String (Option V) :=
  if em.has_component_manager t = false then .ok none
  else
    match em.components_managers t with
    | none => .error "called unwrap on a missing component manager"
    | some manager => .ok (manager.borrow_component_mut entity)

/-- `EntityManager::query_entities_pair`: `None` if either type is
unregistered, else the query for the OR of the two component bits. -/
def EntityManager.query_entities_pair (em : EntityManager V) (tT tU : TypeId) :
    Except String (Option (List EntityId)) :=
  if !em.has_component_manager tT || !em.has_component_manager tU then .ok none
  else
    match em.query_manager.get_bit_for_component tT,
          em.query_manager.get_bit_for_component tU with
    | some component_query_t, some component_query_u =>
        .ok (em.query_manager.query (component_query_t ||| component_query_u))
    | _, _ => .error "called unwrap on a missing component bit"

/-- `EntityManager::borrow_components_pair_for_entity`: `None` if either type
is unregistered; otherwise both pools are fetched through
`cast_manager_mut_unsafe` — with NO check that the two type tokens differ —
and both lookups are unwrapped (a panic when either component is absent).
When `tT = tU` the two fetches alias the same pool, and the returned pair
reads the same pool slot twice. -/
def EntityManager.borrow_components_pair_for_entity (em : EntityManager V) (tT tU : TypeId)
    (entity : EntityId) : Except String (Option (V × V)) :=
  if !em.has_component_manager tT || !em.has_component_manager tU then .ok none
  else
    match em.components_managers tT, em.components_managers tU with
    | some manager_t, some manager_u =>
        match manager_t.borrow_component_mut entity, manager_u.borrow_component_mut entity with
        | some component_t, some component_u => .ok (some (component_t, component_u))
        | _, _ => .error "called unwrap on a missing component"
    | _, _ => .error "called unwrap on a missing component manager"

/-- Modelled from the spec: the facade entity destruction.  `EntityManager`
in src exposes no destroy method even though the spec lists entity
destruction; per spec section 3 and section 4.1, destruction delegates to the
lifecycle `remove` (mark dead, push onto the free list) and "does not touch
component pools or masks". -/
def EntityManager.destroy_entity (em : EntityManager V) (entity_id : EntityId) :
    EntityManager V :=
  { em with entities := em.entities.remove entity_id }

/-- Modelled from the spec: `remove_component<T>(id)` is listed in spec
section 6 but absent from src (no facade method removes a component).  Per
section 7 an unregistered type on removal is fatal; per sections 4.2 and 4.4
the operation removes the pool entry and moves the entity to the group of its
mask with the component bit cleared. -/
def EntityManager.remove_component (em : EntityManager V) (t : TypeId)
    (entity_id : EntityId) : Except String (EntityManager V) :=
  if em.has_component_manager t = false then
    .error "component manager not found for type"
  else
    match em.query_manager.get_bit_for_component t with
    | none => .error "component not found for type"
    | some component_bitmask =>
        let bitmask := em.query_manager.get_bitmask_for_entity entity_id
        let qm1 := em.query_manager.remove_entity entity_id
        let qm2 := qm1.add_entity entity_id (bitmask ^^^ (bitmask &&& component_bitmask))
        match em.components_managers t with
        | none => .error "component manager not found for type"
        | some manager =>
            .ok { em with
                    query_manager := qm2,
                    components_managers :=
                      mapInsert em.components_managers t (manager.remove entity_id) }

/-- The facade-level "entity currently holds a component of type `t`". -/
def holdsComponent (em : EntityManager V) (t : TypeId) (entity_id : EntityId) : Bool :=
  match em.components_managers t with
  | some manager => manager.has entity_id
  | none => false

/-- Programs over the facade: the operations the claims build states with
(registration, entity creation, component add, component remove — no entity
destruction). -/
inductive Op where
  | registerComp (t : TypeId)
  | createEnt
  | addComp (t : TypeId) (e : EntityId) (v : Nat)
  | removeComp (t : TypeId) (e : EntityId)

def Op.isRegister : Op → Bool
  | .registerComp _ => true
  | _ => false

def runOp (em : EntityManager Nat) : Op → Except String (EntityManager Nat)
  | .registerComp t => .ok (em.register_component t)
  | .createEnt => .ok (em.create_entity).2
  | .addComp t e v => em.add_component_to_entity t e v
  | .removeComp t e => em.remove_component t e

def runProgFrom (em : EntityManager Nat) : List Op → Except String (EntityManager Nat)
  | [] => .ok em
  | op :: rest =>
      match runOp em op with
      | .ok em1 => runProgFrom em1 rest
      | .error s => .error s

def runProg (prog : List Op) : Except String (EntityManager Nat) :=
  runProgFrom EntityManager.new prog

/-! Invariants of the data model (sparse-set pool consistency and query-index
consistency), used to settle the functional-correctness claims. -/

/-- Sparse-set pool invariant: the dense arrays have equal length and the
sparse map holds exactly the inverse of the dense id array. -/
structure PoolWF (m : ComponentManager α) : Prop where
  len_eq : m.components.length = m.entities_ids.length
  index_iff : ∀ e i, m.entity_to_component_index e = some i ↔ m.entities_ids[i]? = some e

/-- The mask the query manager currently records for an entity. -/
def maskOf (qm : QueryManager) (e : EntityId) : Mask :=
  qm.get_bitmask_for_entity e

/-- The entity sits in a group carrying exactly mask `m`. -/
def memGroup (qm : QueryManager) (e : EntityId) (m : Mask) : Prop :=
  ∃ g, g ∈ qm.query_entities ∧ g.1 = m ∧ e ∈ g.2

/-- Consistency of the group table with the per-entity mask map. -/
structure GroupsWF (qm : QueryManager) : Prop where
  group_mask : ∀ g, g ∈ qm.query_entities → ∀ e, e ∈ g.2 → qm.entities_query e = some g.1
  group_exists : ∀ e m, qm.entities_query e = some m → memGroup qm e m
  masks_nodup : (qm.query_entities.map Prod.fst).Nodup
  lists_nodup : ∀ g, g ∈ qm.query_entities → g.2.Nodup

/-- Full facade invariant after `k` bit allocations: the next fresh bit is
`2 ^ k` (wrapped), no bit has ever been released (the facade never
unregisters), every assigned bit is a distinct power of two below `2 ^ k`,
pool registration and bit registration coincide, every pool satisfies the
sparse-set invariant, every recorded mask is below `2 ^ k`, a pool holds an
entity exactly when the entity mask contains the pool bit, and the group
table is consistent. -/
structure WF (em : EntityManager Nat) (k : Nat) : Prop where
  next_bit_eq : em.query_manager.next_bit = 2 ^ k % u128Size
  reusable_nil : em.query_manager.reusable_bits = []
  bits_pow : ∀ t b, em.query_manager.bit_mapping t = some b → ∃ i, i < k ∧ b = 2 ^ i
  bits_inj : ∀ t u b, em.query_manager.bit_mapping t = some b →
      em.query_manager.bit_mapping u = some b → t = u
  mgr_iff_bit : ∀ t, (em.components_managers t).isSome =
      (em.query_manager.bit_mapping t).isSome
  pools_wf : ∀ t pool, em.components_managers t = some pool → PoolWF pool
  mask_lt : ∀ e m, em.query_manager.entities_query e = some m → m < 2 ^ k
  mask_char : ∀ t pool b e, em.components_managers t = some pool →
      em.query_manager.bit_mapping t = some b →
      (pool.has e = true ↔ maskOf em.query_manager e &&& b = b)
  groups_wf : GroupsWF em.query_manager

/-! Concrete states used by counterexamples and witnesses. -/

/-- One registered type, one entity holding value `7` of it (for C2). -/
def emC2 : EntityManager Nat :=
  match runProg [.registerComp 1, .createEnt, .addComp 1 0 7] with
  | .ok em => em
  | .error _ => EntityManager.new

/-- Concrete sparse-set pool with three entries (for the C4 witness). -/
def poolC4 : ComponentManager Nat :=
  ((ComponentManager.new.add 10 100).add 11 200).add 12 300

/-- One registered type, one entity holding a component (for the C3 witness). -/
def emC3 : EntityManager Nat :=
  match runProg [.registerComp 1, .createEnt, .addComp 1 0 5] with
  | .ok em => em
  | .error _ => EntityManager.new

/-- Two registered types, entity `0` holding only the first (for C7). -/
def emC7 : EntityManager Nat :=
  match runProg [.registerComp 1, .registerComp 2, .createEnt, .addComp 1 0 5] with
  | .ok em => em
  | .error _ => EntityManager.new

def poolC7T : ComponentManager Nat :=
  match emC7.components_managers 1 with
  | some pool => pool
  | none => ComponentManager.new

def poolC7U : ComponentManager Nat :=
  match emC7.components_managers 2 with
  | some pool => pool
  | none => ComponentManager.new

/-- Query manager after registering bits 1, 2, 4 and releasing first bit 4,
then bit 2 — so the released pool is `[4, 2]` in release order (for C8). -/
def qmC8 : QueryManager :=
  match (((QueryManager.new.register_component 1).register_component
      2).register_component 3).unregister_component 3 with
  | some qm1 =>
      match qm1.unregister_component 2 with
      | some qm2 => qm2
      | none => QueryManager.new
  | none => QueryManager.new

/-- Query manager after 129 fresh registrations of distinct types `0..128`
with no unregistration (for C9). -/
def qmC9 : QueryManager :=
  (List.range 129).foldl (fun qm t => qm.register_component t) QueryManager.new

/-- Program for the C1 witness: two registered types, three entities with
assorted components, one component removal. -/
def progC1 : List Op :=
  [.registerComp 1, .registerComp 2, .createEnt, .createEnt, .createEnt,
   .addComp 1 0 10, .addComp 2 0 20, .addComp 1 1 30, .removeComp 1 0]

def emC1 : EntityManager Nat :=
  match runProg progC1 with
  | .ok em => em
  | .error _ => EntityManager.new

/-- Program for the C5 witness: the base state before the two duplicate adds. -/
def progC5 : List Op :=
  [.registerComp 1, .registerComp 2, .createEnt, .addComp 2 0 50]

def emC5 : EntityManager Nat :=
  match runProg progC5 with
  | .ok em => em
  | .error _ => EntityManager.new

/-- State after the first add of the C5 witness. -/
def emC5a : EntityManager Nat :=
  match emC5.add_component_to_entity 1 0 3 with
  | .ok em => em
  | .error _ => EntityManager.new

/-- State after the duplicate add of the C5 witness. -/
def emC5b : EntityManager Nat :=
  match emC5a.add_component_to_entity 1 0 4 with
  | .ok em => em
  | .error _ => EntityManager.new

/-! Basic lemmas about the map model and small operations. -/

theorem mapInsert_self (m : Nat → Option β) (k : Nat) (v : β) : mapInsert m k v k = some v := by
  simp [mapInsert]

theorem mapInsert_ne (m : Nat → Option β) (k : Nat) (v : β) (x : Nat) (h : x ≠ k) :
    mapInsert m k v x = m x := by
  simp [mapInsert, h]

theorem mapRemove_self (m : Nat → Option β) (k : Nat) : mapRemove m k k = none := by
  simp [mapRemove]

theorem mapRemove_ne (m : Nat → Option β) (k : Nat) (x : Nat) (h : x ≠ k) :
    mapRemove m k x = m x := by
  simp [mapRemove, h]

theorem listModify_length (l : List α) (i : Nat) (f : α → α) :
    (listModify l i f).length = l.length := by
  unfold listModify
  cases h : l[i]? <;> simp

theorem listModify_getElem?_self (l : List α) (i : Nat) (f : α → α) (a : α)
    (h : l[i]? = some a) : (listModify l i f)[i]? = some (f a) := by
  have hlt : i < l.length := by
    by_contra hge
    rw [List.getElem?_eq_none (Nat.le_of_not_lt hge)] at h
    exact Option.noConfusion h
  unfold listModify
  rw [h]
  simp [List.getElem?_set_self hlt]

theorem borrow_mut_eq_none_of_has_false (m : ComponentManager α) (e : EntityId)
    (h : m.has e = false) : m.borrow_component_mut e = none := by
  unfold ComponentManager.has at h
  unfold ComponentManager.borrow_component_mut
  cases hm : m.entity_to_component_index e with
  | none => rfl
  | some i => rw [hm] at h; simp at h

theorem Entities.has_iff (s : Entities) (e : EntityId) :
    s.has e = true ↔ ∃ ent, s.entities[e]? = some ent ∧ ent.is_alive = true := by
  unfold Entities.has
  cases h : s.entities[e]? with
  | none => simp [h]
  | some ent =>
      have hlt : e < s.entities.length := by
        by_contra hge
        rw [List.getElem?_eq_none (Nat.le_of_not_lt hge)] at h
        exact Option.noConfusion h
      simp [h, hlt]

/-- C2 (code_bug): the split borrow called with the SAME type token twice, on
an entity holding that component, is NOT rejected — the source returns
`Some` of a pair whose two sides are mutable references into the same pool
(two aliasing `&mut` into one storage slot, undefined behavior), rather than
panicking or returning an absent result as the spec requires.  In the value
semantics of the embedding the call returns the same pool slot twice. -/
theorem C2_same_type_pair_not_rejected :
    emC2.has_component_manager 1 = true ∧ holdsComponent emC2 1 0 = true ∧
    emC2.borrow_components_pair_for_entity 1 1 0 = .ok (some (7, 7)) :=
  ⟨rfl, rfl, rfl⟩

/-- C6 counterexample: the mutable getter called on a fresh facade with an
unregistered type returns the recoverable absent result `.ok none`; it is not
fatal, refuting the claim at this input. -/
theorem C6_counterexample_returns_absent :
    isFatal ((EntityManager.new : EntityManager Nat).borrow_components_for_entity 1 0) = false ∧
    (EntityManager.new : EntityManager Nat).borrow_components_for_entity 1 0 = .ok none :=
  ⟨rfl, rfl⟩

/-- C6 (corrected): for every facade state and entity id, the mutable getter
`borrow_components_for_entity` called with an unregistered type returns the
recoverable absent result `None` (an explicit early return in the source),
rather than aborting. -/
theorem C6_mut_getter_unregistered_returns_absent (em : EntityManager Nat) (t : TypeId)
    (e : EntityId) (h : em.components_managers t = none) :
    em.borrow_components_for_entity t e = .ok none := by
  unfold EntityManager.borrow_components_for_entity EntityManager.has_component_manager
  rw [h]
  rfl

/-- Witness for C6 at a concrete input. -/
theorem C6_witness :
    (EntityManager.new : EntityManager Nat).components_managers 1 = none ∧
    (EntityManager.new : EntityManager Nat).borrow_components_for_entity 1 0 = .ok none :=
  ⟨rfl, C6_mut_getter_unregistered_returns_absent EntityManager.new 1 0 rfl⟩

/-- C10 (confirmed): the immutable getter `borrow_component_for_entity`
unconditionally unwraps the registry entry, so an unregistered type is a
panic — unlike the mutable getter, which returns the absent result for the
same input. -/
theorem C10_immutable_getter_unregistered_fatal (em : EntityManager Nat) (t : TypeId)
    (e : EntityId) (h : em.components_managers t = none) :
    isFatal (em.borrow_component_for_entity t e) = true ∧
    em.borrow_components_for_entity t e = .ok none := by
  constructor
  · unfold EntityManager.borrow_component_for_entity
    rw [h]
    rfl
  · unfold EntityManager.borrow_components_for_entity EntityManager.has_component_manager
    rw [h]
    rfl

/-- Witness for C10 at a concrete input. -/
theorem C10_witness :
    (EntityManager.new : EntityManager Nat).components_managers 1 = none ∧
    (isFatal ((EntityManager.new : EntityManager Nat).borrow_component_for_entity 1 0) = true ∧
      (EntityManager.new : EntityManager Nat).borrow_components_for_entity 1 0 = .ok none) :=
  ⟨rfl, C10_immutable_getter_unregistered_fatal EntityManager.new 1 0 rfl⟩

set_option maxRecDepth 4000 in
/-- C9 (code_bug): with the wrapping arithmetic of a release build, after 128
fresh registrations `next_bit` has wrapped to `0`, and the 129th registration
silently assigns the invalid bit `0` (the 128th still got the valid bit
`2 ^ 127`); nothing fails loudly.  (A debug build would instead abort during
the 128th registration, at the overflowing doubling.)  The source marks the
cap with a TODO and handles it in neither way the spec requires. -/
theorem C9_bit_budget_wraps_to_zero :
    qmC9.bit_mapping 128 = some 0 ∧ qmC9.next_bit = 0 ∧
    qmC9.bit_mapping 127 = some (2 ^ 127) :=
  ⟨rfl, rfl, rfl⟩

/-- C8 counterexample: with released bits `[4, 2]` (bit 4 released first),
the next registration assigns bit `4` — the FRONT of the release-order queue
— even though the smaller released bit `2` is available, refuting the
lowest-available-bit claim. -/
theorem C8_smallest_released_bit_not_assigned :
    qmC8.reusable_bits = [4, 2] ∧
    (qmC8.register_component 4).bit_mapping 4 = some 4 ∧
    (2 : Mask) ∈ qmC8.reusable_bits ∧ (2 : Mask) < 4 :=
  ⟨rfl, rfl, by decide, by decide⟩

/-- C8 (corrected): `register_component` does prefer recycling over fresh
allocation, but it assigns the EARLIEST-released bit (the front of the
first-in-first-out released queue, `Vec::remove(0)`), not the smallest
released bit; with no released bit it assigns `next_bit`, the lowest
never-allocated bit. -/
theorem C8_register_assigns_fifo_front_or_next (qm : QueryManager) (t : TypeId) :
    (qm.register_component t).bit_mapping t =
      some (match qm.reusable_bits with
            | b :: _ => b
            | [] => qm.next_bit) := by
  cases h : qm.reusable_bits <;>
    simp [QueryManager.register_component, h, mapInsert_self]

/-- C7 counterexample: with two distinct registered types and entity `0`
holding only the first, the split borrow panics (unwrap on the absent second
component) instead of returning the absent pair the claim predicts. -/
theorem C7_counterexample_absent_component_fatal :
    emC7.has_component_manager 1 = true ∧ emC7.has_component_manager 2 = true ∧
    holdsComponent emC7 1 0 = true ∧ holdsComponent emC7 2 0 = false ∧
    isFatal (emC7.borrow_components_pair_for_entity 1 2 0) = true :=
  ⟨rfl, rfl, rfl, rfl, rfl⟩

/-- C7 (corrected): for distinct registered types T, U and an entity lacking
a T component or a U component, the split borrow
`borrow_components_pair_for_entity` panics on the unwrap of the missing
component rather than returning an absent pair; the absent result is
reserved for an unregistered type. -/
theorem C7_pair_on_absent_component_is_fatal (em : EntityManager Nat) (tT tU : TypeId)
    (e : EntityId) (poolT poolU : ComponentManager Nat)
    (hT : em.components_managers tT = some poolT)
    (hU : em.components_managers tU = some poolU)
    (_hne : tT ≠ tU)
    (habs : poolT.has e = false ∨ poolU.has e = false) :
    isFatal (em.borrow_components_pair_for_entity tT tU e) = true := by
  unfold EntityManager.borrow_components_pair_for_entity EntityManager.has_component_manager
  rw [hT, hU]
  simp only [Option.isSome_some, Bool.not_true, Bool.false_or, Bool.or_self, if_false]
  rcases habs with h | h
  · rw [borrow_mut_eq_none_of_has_false poolT e h]
    cases poolU.borrow_component_mut e <;> rfl
  · rw [borrow_mut_eq_none_of_has_false poolU e h]
    cases poolT.borrow_component_mut e <;> rfl

/-- Witness for C7 at a concrete input: both types registered, the entity
lacks the second component, and the call is fatal. -/
theorem C7_witness :
    emC7.components_managers 1 = some poolC7T ∧
    emC7.components_managers 2 = some poolC7U ∧
    (1 : TypeId) ≠ 2 ∧
    (poolC7T.has 0 = false ∨ poolC7U.has 0 = false) ∧
    isFatal (emC7.borrow_components_pair_for_entity 1 2 0) = true :=
  ⟨rfl, rfl, by decide, Or.inr rfl,
    C7_pair_on_absent_component_is_fatal emC7 1 2 0 poolC7T poolC7U rfl rfl (by decide)
      (Or.inr rfl)⟩

/-- C3 (confirmed, with the facade destruction modelled from the spec):
destroying an entity and recycling its id through `create` changes only
liveness and the free list — the pools and the whole query manager are
untouched, so the recycled id still resolves its old components and is still
returned by queries, exactly as before the destruction. -/
theorem C3_destroy_then_recycle_preserves_residue (em : EntityManager Nat) (e : EntityId)
    (halive : em.entities.has e = true) :
    ((em.destroy_entity e).create_entity).1 = e ∧
    ((em.destroy_entity e).create_entity).2.components_managers = em.components_managers ∧
    ((em.destroy_entity e).create_entity).2.query_manager = em.query_manager ∧
    (em.destroy_entity e).entities.has e = false ∧
    ((em.destroy_entity e).create_entity).2.entities.has e = true ∧
    (∀ t eid, ((em.destroy_entity e).create_entity).2.borrow_component_for_entity t eid =
        em.borrow_component_for_entity t eid) ∧
    (∀ t, ((em.destroy_entity e).create_entity).2.query_entities t = em.query_entities t) ∧
    (∀ tT tU, ((em.destroy_entity e).create_entity).2.query_entities_pair tT tU =
        em.query_entities_pair tT tU) := by
  obtain ⟨ent, hent, hal⟩ := (Entities.has_iff em.entities e).mp halive
  have hlt : e < em.entities.entities.length := by
    by_contra hge
    rw [List.getElem?_eq_none (Nat.le_of_not_lt hge)] at hent
    exact Option.noConfusion hent
  have hrem : em.entities.remove e =
      { entities := listModify em.entities.entities e Entity.kill,
        available_ids := em.entities.available_ids ++ [e] } := by
    unfold Entities.remove
    rw [halive]
    rfl
  have hdead : (listModify em.entities.entities e Entity.kill)[e]? = some ⟨false⟩ :=
    listModify_getElem?_self em.entities.entities e Entity.kill ent hent
  have hcreate : (em.entities.remove e).create =
      (e, { entities := listModify (listModify em.entities.entities e Entity.kill) e
              Entity.reset,
            available_ids := (em.entities.available_ids ++ [e]).dropLast }) := by
    rw [hrem]
    unfold Entities.create
    rw [List.getLast?_concat]
  refine ⟨?_, rfl, rfl, ?_, ?_, fun t eid => rfl, fun t => rfl, fun tT tU => rfl⟩
  · show ((em.destroy_entity e).entities.create).1 = e
    show ((em.entities.remove e).create).1 = e
    rw [hcreate]
  · show (em.entities.remove e).has e = false
    rw [hrem]
    unfold Entities.has
    rw [hdead]
    simp
  · show ((em.destroy_entity e).entities.create).2.has e = true
    show ((em.entities.remove e).create).2.has e = true
    rw [hcreate]
    unfold Entities.has
    have halive3 : (listModify (listModify em.entities.entities e Entity.kill) e
        Entity.reset)[e]? = some ⟨true⟩ :=
      listModify_getElem?_self _ e Entity.reset ⟨false⟩ hdead
    rw [halive3]
    simp [listModify_length, hlt]

theorem lt_length_of_getElem? {l : List α} {i : Nat} {a : α} (h : l[i]? = some a) :
    i < l.length := by
  by_contra hge
  rw [List.getElem?_eq_none (Nat.le_of_not_lt hge)] at h
  exact Option.noConfusion h

theorem swapRemove_length (l : List α) (i : Nat) :
    (swapRemove l i).length = l.length - 1 := by
  unfold swapRemove
  cases h : l.getLast? with
  | none =>
      have hl := List.getLast?_eq_none_iff.mp h
      subst hl
      rfl
  | some a => simp

theorem swapRemove_getElem? (l : List α) (i j : Nat) :
    (swapRemove l i)[j]? =
      if j < l.length - 1 then (if j = i then l[l.length - 1]? else l[j]?) else none := by
  unfold swapRemove
  cases h : l.getLast? with
  | none =>
      have hl := List.getLast?_eq_none_iff.mp h
      subst hl
      simp
  | some a =>
      dsimp only
      rw [List.dropLast_eq_take]
      simp only [List.length_set]
      by_cases hj : j < l.length - 1
      · rw [List.getElem?_take_of_lt hj, if_pos hj]
        by_cases hji : j = i
        · subst hji
          rw [if_pos rfl]
          have hjlt : j < l.length := Nat.lt_of_lt_of_le hj (Nat.sub_le _ _)
          rw [List.getElem?_set_self hjlt, ← List.getLast?_eq_getElem?, h]
        · rw [if_neg hji, List.getElem?_set_ne (Ne.symm hji)]
      · rw [if_neg hj]
        apply List.getElem?_eq_none
        rw [List.length_take, List.length_set]
        omega

theorem has_some_index (m : ComponentManager α) (e : EntityId) (hhas : m.has e = true) :
    ∃ c, m.entity_to_component_index e = some c := by
  unfold ComponentManager.has at hhas
  cases hm : m.entity_to_component_index e with
  | none => rw [hm] at hhas; simp at hhas
  | some c => exact ⟨c, rfl⟩

theorem has_none_index (m : ComponentManager α) (e : EntityId) (hhas : m.has e = false) :
    m.entity_to_component_index e = none := by
  unfold ComponentManager.has at hhas
  cases hm : m.entity_to_component_index e with
  | none => rfl
  | some c => rw [hm] at hhas; simp at hhas

theorem poolWF_new : PoolWF (ComponentManager.new : ComponentManager α) := by
  refine ⟨rfl, ?_⟩
  intro x i
  constructor
  · intro hx
    exact absurd hx (by simp [ComponentManager.new])
  · intro hx
    simp [ComponentManager.new] at hx

theorem poolWF_add (m : ComponentManager α) (hwf : PoolWF m) (e : EntityId) (v : α) :
    PoolWF (m.add e v) := by
  unfold ComponentManager.add
  by_cases h : m.has e
  · rw [if_pos h]; exact hwf
  · rw [if_neg h]
    have hnone : m.entity_to_component_index e = none := has_none_index m e (by
      cases hb : m.has e
      · rfl
      · exact absurd hb h)
    refine ⟨by dsimp only; simp [hwf.len_eq], ?_⟩
    intro x i
    dsimp only
    constructor
    · intro hx
      by_cases hxe : x = e
      · subst hxe
        rw [mapInsert_self] at hx
        injection hx with hx
        subst hx
        have hlen : (m.components ++ [v]).length - 1 = m.entities_ids.length := by
          simp [hwf.len_eq]
        rw [hlen]
        exact List.getElem?_concat_length _ _
      · rw [mapInsert_ne _ _ _ _ hxe] at hx
        have h2 := (hwf.index_iff x i).mp hx
        rw [List.getElem?_append_left (lt_length_of_getElem? h2)]
        exact h2
    · intro hx
      by_cases hil : i < m.entities_ids.length
      · rw [List.getElem?_append_left hil] at hx
        have h2 := (hwf.index_iff x i).mpr hx
        have hxe : x ≠ e := by
          intro he
          rw [he, hnone] at h2
          exact Option.noConfusion h2
        rw [mapInsert_ne _ _ _ _ hxe]
        exact h2
      · rw [List.getElem?_append_right (Nat.le_of_not_lt hil)] at hx
        have h0 : i - m.entities_ids.length = 0 ∧ x = e := by
          cases hd : i - m.entities_ids.length with
          | zero => rw [hd] at hx; simp at hx; exact ⟨rfl, hx.symm⟩
          | succ kk => rw [hd] at hx; simp at hx
        obtain ⟨hi0, hxe⟩ := h0
        subst hxe
        have hieq : i = m.entities_ids.length := by omega
        subst hieq
        rw [mapInsert_self]
        congr 1
        simp [hwf.len_eq]

/-- C4 (confirmed): removing any entity from a well-formed sparse-set pool
leaves the lookup of every other entity unchanged — including when the
removed entity occupies the last dense slot. -/
theorem C4_swap_remove_preserves_survivors (m : ComponentManager Nat) (ei ej : EntityId)
    (hwf : PoolWF m) (hhas : m.has ei = true) (hne : ej ≠ ei) :
    (m.remove ei).borrow_component_for_entity ej = m.borrow_component_for_entity ej := by
  obtain ⟨ci, hci⟩ := has_some_index m ei hhas
  have hids_ci : m.entities_ids[ci]? = some ei := (hwf.index_iff ei ci).mp hci
  have hcilt : ci < m.entities_ids.length := lt_length_of_getElem? hids_ci
  have hlast_lt : m.entities_ids.length - 1 < m.entities_ids.length := by omega
  obtain ⟨lastOwner, hlo⟩ : ∃ lo, m.entities_ids[m.entities_ids.length - 1]? = some lo :=
    ⟨m.entities_ids.get ⟨_, hlast_lt⟩, by simp [hlast_lt]⟩
  have hgl : m.entities_ids.getLast? = some lastOwner := by
    rw [List.getLast?_eq_getElem?]
    exact hlo
  have hmaplast : m.entity_to_component_index lastOwner =
      some (m.entities_ids.length - 1) := (hwf.index_iff _ _).mpr hlo
  have hrm : m.remove ei =
      { components := swapRemove m.components ci,
        entities_ids := swapRemove m.entities_ids ci,
        entity_to_component_index :=
          mapRemove (mapInsert (mapRemove m.entity_to_component_index ei) lastOwner ci)
            ei } := by
    unfold ComponentManager.remove
    rw [hci, hgl]
  rw [hrm]
  unfold ComponentManager.borrow_component_for_entity
  dsimp only
  by_cases hjlo : ej = lastOwner
  · subst hjlo
    have hm2 : mapRemove (mapInsert (mapRemove m.entity_to_component_index ei) ej ci) ei ej
        = some ci := by
      rw [mapRemove_ne _ _ _ hne, mapInsert_self]
    rw [hm2, hmaplast]
    dsimp only
    have hcine : ci ≠ m.entities_ids.length - 1 := by
      intro heq
      rw [heq, hlo] at hids_ci
      injection hids_ci with hh
      exact hne hh
    have hcilt2 : ci < m.entities_ids.length - 1 := by omega
    rw [swapRemove_getElem?, hwf.len_eq, if_pos hcilt2, if_pos rfl]
  · have hm2 : mapRemove (mapInsert (mapRemove m.entity_to_component_index ei) lastOwner ci)
        ei ej = m.entity_to_component_index ej := by
      rw [mapRemove_ne _ _ _ hne, mapInsert_ne _ _ _ _ hjlo, mapRemove_ne _ _ _ hne]
    rw [hm2]
    cases hmj : m.entity_to_component_index ej with
    | none => rfl
    | some j =>
        dsimp only
        have hidsj : m.entities_ids[j]? = some ej := (hwf.index_iff ej j).mp hmj
        have hjlt : j < m.entities_ids.length := lt_length_of_getElem? hidsj
        have hjne_ci : j ≠ ci := by
          intro heq
          rw [heq, hids_ci] at hidsj
          injection hidsj with hh
          exact hne hh.symm
        have hjne_last : j ≠ m.entities_ids.length - 1 := by
          intro heq
          rw [heq, hlo] at hidsj
          injection hidsj with hh
          exact hjlo hh.symm
        have hjlt2 : j < m.entities_ids.length - 1 := by omega
        rw [swapRemove_getElem?, hwf.len_eq, if_pos hjlt2, if_neg hjne_ci]

/-- Witness for C4 at a concrete input: the removed entity occupies the very
last dense slot, and a survivor keeps its value. -/
theorem C4_witness :
    PoolWF poolC4 ∧ poolC4.has 12 = true ∧ (10 : EntityId) ≠ 12 ∧
    (poolC4.remove 12).borrow_component_for_entity 10 =
      poolC4.borrow_component_for_entity 10 :=
  have hwf : PoolWF poolC4 :=
    poolWF_add _ (poolWF_add _ (poolWF_add _ poolWF_new 10 100) 11 200) 12 300
  ⟨hwf, rfl, by decide, C4_swap_remove_preserves_survivors poolC4 12 10 hwf rfl (by decide)⟩

/-! Bit-level helper lemmas for the mask reasoning. -/

theorem testBit_two_pow (i j : Nat) : (2 ^ i : Nat).testBit j = decide (i = j) := by
  by_cases h : i = j
  · subst h
    simp [Nat.testBit_two_pow_self]
  · simp [Nat.testBit_two_pow_of_ne h, h]

theorem land_pow_eq_iff (m i : Nat) : m &&& 2 ^ i = 2 ^ i ↔ m.testBit i = true := by
  constructor
  · intro h
    have h2 := congrArg (Nat.testBit · i) h
    simpa [Nat.testBit_and, Nat.testBit_two_pow_self] using h2
  · intro h
    apply Nat.eq_of_testBit_eq
    intro j
    rw [Nat.testBit_and, testBit_two_pow]
    by_cases hij : i = j
    · subst hij
      simp [h]
    · simp [hij]

theorem land_lor_eq_iff (m a b : Nat) :
    m &&& (a ||| b) = (a ||| b) ↔ (m &&& a = a ∧ m &&& b = b) := by
  have hb1 : ∀ x y z : Bool, ((x && (y || z)) = (y || z)) → ((x && y) = y) := by decide
  have hb2 : ∀ x y z : Bool, ((x && (y || z)) = (y || z)) → ((x && z) = z) := by decide
  have hb3 : ∀ x y z : Bool, ((x && y) = y) → ((x && z) = z) →
      ((x && (y || z)) = (y || z)) := by decide
  constructor
  · intro h
    constructor
    · apply Nat.eq_of_testBit_eq
      intro j
      have hj := congrArg (Nat.testBit · j) h
      simp only [Nat.testBit_and, Nat.testBit_or] at hj
      rw [Nat.testBit_and]
      exact hb1 _ _ _ hj
    · apply Nat.eq_of_testBit_eq
      intro j
      have hj := congrArg (Nat.testBit · j) h
      simp only [Nat.testBit_and, Nat.testBit_or] at hj
      rw [Nat.testBit_and]
      exact hb2 _ _ _ hj
  · rintro ⟨h1, h2⟩
    apply Nat.eq_of_testBit_eq
    intro j
    have hj1 := congrArg (Nat.testBit · j) h1
    have hj2 := congrArg (Nat.testBit · j) h2
    simp only [Nat.testBit_and] at hj1 hj2
    simp only [Nat.testBit_and, Nat.testBit_or]
    exact hb3 _ _ _ hj1 hj2

theorem testBit_lor_pow_self (m i : Nat) : (m ||| 2 ^ i).testBit i = true := by
  simp [Nat.testBit_or, Nat.testBit_two_pow_self]

theorem testBit_lor_pow_ne (m i j : Nat) (h : i ≠ j) :
    (m ||| 2 ^ i).testBit j = m.testBit j := by
  simp [Nat.testBit_or, Nat.testBit_two_pow_of_ne h]

theorem testBit_clear_pow_self (m i : Nat) : (m ^^^ (m &&& 2 ^ i)).testBit i = false := by
  rw [Nat.testBit_xor, Nat.testBit_and, Nat.testBit_two_pow_self]
  cases m.testBit i <;> rfl

theorem testBit_clear_pow_ne (m i j : Nat) (h : i ≠ j) :
    (m ^^^ (m &&& 2 ^ i)).testBit j = m.testBit j := by
  rw [Nat.testBit_xor, Nat.testBit_and, Nat.testBit_two_pow_of_ne h]
  cases m.testBit j <;> rfl

theorem clear_pow_lt (m i k : Nat) (h : m < 2 ^ k) : m ^^^ (m &&& 2 ^ i) < 2 ^ k :=
  Nat.xor_lt_two_pow h (Nat.lt_of_le_of_lt Nat.and_le_left h)

theorem testBit_of_lt_pow (m k j : Nat) (h : m < 2 ^ k) (hj : k ≤ j) :
    m.testBit j = false :=
  Nat.testBit_lt_two_pow (Nat.lt_of_lt_of_le h (Nat.pow_le_pow_right (by norm_num) hj))

/-! Lemmas about the group-list edits of the query manager. -/

theorem removeFromGroups_map_fst (gs : List (Mask × List EntityId)) (e : EntityId) :
    (removeFromGroups gs e).map Prod.fst = gs.map Prod.fst := by
  induction gs with
  | nil => rfl
  | cons g rest ih =>
      unfold removeFromGroups
      cases hc : g.2.contains e <;> simp [ih]

theorem removeFromGroups_lists (gs : List (Mask × List EntityId)) (e : EntityId) :
    ∀ g2, g2 ∈ removeFromGroups gs e →
      ∃ g, g ∈ gs ∧ g2.1 = g.1 ∧
        (g2.2 = g.2 ∨ g2.2 = g.2.filter (fun id => id ≠ e)) := by
  induction gs with
  | nil => intro g2 h; simp [removeFromGroups] at h
  | cons g rest ih =>
      intro g2 h2
      unfold removeFromGroups at h2
      cases hc : g.2.contains e with
      | true =>
          rw [hc] at h2
          simp only [if_true] at h2
          rcases List.mem_cons.mp h2 with rfl | hr
          · exact ⟨g, List.mem_cons_self _ _, rfl, Or.inr rfl⟩
          · exact ⟨g2, List.mem_cons_of_mem _ hr, rfl, Or.inl rfl⟩
      | false =>
          rw [hc] at h2
          simp only [Bool.false_eq_true, if_false] at h2
          rcases List.mem_cons.mp h2 with rfl | hr
          · exact ⟨g2, List.mem_cons_self _ _, rfl, Or.inl rfl⟩
          · obtain ⟨g3, hg3, heq, hor⟩ := ih g2 hr
            exact ⟨g3, List.mem_cons_of_mem _ hg3, heq, hor⟩

theorem mem_removeFromGroups (gs : List (Mask × List EntityId)) (f : EntityId → Option Mask)
    (hg : ∀ g, g ∈ gs → ∀ x, x ∈ g.2 → f x = some g.1)
    (hn : (gs.map Prod.fst).Nodup) (e e2 : EntityId) (m : Mask) :
    (∃ g, g ∈ removeFromGroups gs e ∧ g.1 = m ∧ e2 ∈ g.2) ↔
      (e2 ≠ e ∧ ∃ g, g ∈ gs ∧ g.1 = m ∧ e2 ∈ g.2) := by
  induction gs with
  | nil => simp [removeFromGroups]
  | cons g rest ih =>
      have hgrest : ∀ g2, g2 ∈ rest → ∀ x, x ∈ g2.2 → f x = some g2.1 :=
        fun g2 hg2 => hg g2 (List.mem_cons_of_mem _ hg2)
      have hnrest : (rest.map Prod.fst).Nodup := by
        rw [List.map_cons, List.nodup_cons] at hn
        exact hn.2
      have hhead : g.1 ∉ rest.map Prod.fst := by
        rw [List.map_cons, List.nodup_cons] at hn
        exact hn.1
      unfold removeFromGroups
      cases hc : g.2.contains e with
      | true =>
          have he_g : e ∈ g.2 := List.elem_iff.mp hc
          have hfe : f e = some g.1 := hg g (List.mem_cons_self _ _) e he_g
          have hnot_rest : ∀ g2, g2 ∈ rest → e ∉ g2.2 := by
            intro g2 hg2 he2
            have hfe2 : f e = some g2.1 := hgrest g2 hg2 e he2
            rw [hfe] at hfe2
            injection hfe2 with hfst
            exact hhead (hfst ▸ List.mem_map_of_mem Prod.fst hg2)
          simp only [if_true]
          constructor
          · rintro ⟨g2, hg2, hfst, he2⟩
            rcases List.mem_cons.mp hg2 with rfl | hg2r
            · rw [List.mem_filter] at he2
              have hne : e2 ≠ e := by simpa using he2.2
              exact ⟨hne, g, List.mem_cons_self _ _, hfst, he2.1⟩
            · have hne : e2 ≠ e := by
                intro heq
                subst heq
                exact hnot_rest g2 hg2r he2
              exact ⟨hne, g2, List.mem_cons_of_mem _ hg2r, hfst, he2⟩
          · rintro ⟨hne, g2, hg2, hfst, he2⟩
            rcases List.mem_cons.mp hg2 with rfl | hg2r
            · refine ⟨(g2.1, g2.2.filter (fun id => id ≠ e)), List.mem_cons_self _ _, hfst, ?_⟩
              rw [List.mem_filter]
              exact ⟨he2, by simpa using hne⟩
            · exact ⟨g2, List.mem_cons_of_mem _ hg2r, hfst, he2⟩
      | false =>
          have he_g : e ∉ g.2 := by
            intro hmem
            have hct : g.2.contains e = true := List.elem_iff.mpr hmem
            rw [hct] at hc
            exact Bool.noConfusion hc
          simp only [Bool.false_eq_true, if_false]
          constructor
          · rintro ⟨g2, hg2, hfst, he2⟩
            rcases List.mem_cons.mp hg2 with rfl | hg2r
            · have hne : e2 ≠ e := by
                intro heq
                subst heq
                exact he_g he2
              exact ⟨hne, g2, List.mem_cons_self _ _, hfst, he2⟩
            · obtain ⟨hne, g3, hg3, hfst3, he3⟩ := (ih hgrest hnrest).mp ⟨g2, hg2r, hfst, he2⟩
              exact ⟨hne, g3, List.mem_cons_of_mem _ hg3, hfst3, he3⟩
          · rintro ⟨hne, g2, hg2, hfst, he2⟩
            rcases List.mem_cons.mp hg2 with rfl | hg2r
            · exact ⟨g2, List.mem_cons_self _ _, hfst, he2⟩
            · obtain ⟨g3, hg3, hfst3, he3⟩ := (ih hgrest hnrest).mpr ⟨hne, g2, hg2r, hfst, he2⟩
              exact ⟨g3, List.mem_cons_of_mem _ hg3, hfst3, he3⟩

theorem addToGroups_map_fst_mem (gs : List (Mask × List EntityId)) (e : EntityId)
    (m0 : Mask) (h : m0 ∈ gs.map Prod.fst) :
    (addToGroups gs e m0).map Prod.fst = gs.map Prod.fst := by
  induction gs with
  | nil => simp at h
  | cons g rest ih =>
      unfold addToGroups
      by_cases hgm : g.1 = m0
      · rw [if_pos hgm]
        simp
      · rw [if_neg hgm]
        rw [List.map_cons] at h
        rcases List.mem_cons.mp h with heq | hr
        · exact absurd heq.symm hgm
        · simp [ih hr]

theorem addToGroups_map_fst_not_mem (gs : List (Mask × List EntityId)) (e : EntityId)
    (m0 : Mask) (h : m0 ∉ gs.map Prod.fst) :
    (addToGroups gs e m0).map Prod.fst = gs.map Prod.fst ++ [m0] := by
  induction gs with
  | nil => rfl
  | cons g rest ih =>
      rw [List.map_cons] at h
      have hne : g.1 ≠ m0 := by
        intro heq
        exact h (by rw [← heq]; exact List.mem_cons_self _ _)
      have hrest : m0 ∉ rest.map Prod.fst := fun hr => h (List.mem_cons_of_mem _ hr)
      unfold addToGroups
      rw [if_neg hne]
      simp [ih hrest]

theorem addToGroups_lists (gs : List (Mask × List EntityId)) (e : EntityId) (m0 : Mask) :
    ∀ g2, g2 ∈ addToGroups gs e m0 →
      g2 ∈ gs ∨ (∃ g, g ∈ gs ∧ g.1 = m0 ∧ g2 = (g.1, g.2 ++ [e])) ∨ g2 = (m0, [e]) := by
  induction gs with
  | nil =>
      intro g2 h
      unfold addToGroups at h
      rw [List.mem_singleton] at h
      exact Or.inr (Or.inr h)
  | cons g rest ih =>
      intro g2 h2
      unfold addToGroups at h2
      by_cases hgm : g.1 = m0
      · rw [if_pos hgm] at h2
        rcases List.mem_cons.mp h2 with rfl | hr
        · exact Or.inr (Or.inl ⟨g, List.mem_cons_self _ _, hgm, rfl⟩)
        · exact Or.inl (List.mem_cons_of_mem _ hr)
      · rw [if_neg hgm] at h2
        rcases List.mem_cons.mp h2 with rfl | hr
        · exact Or.inl (List.mem_cons_self _ _)
        · rcases ih g2 hr with h | h | h
          · exact Or.inl (List.mem_cons_of_mem _ h)
          · obtain ⟨g3, hg3, hm, he⟩ := h
            exact Or.inr (Or.inl ⟨g3, List.mem_cons_of_mem _ hg3, hm, he⟩)
          · exact Or.inr (Or.inr h)

theorem mem_addToGroups (gs : List (Mask × List EntityId)) (e : EntityId) (m0 : Mask)
    (e2 : EntityId) (m : Mask) :
    (∃ g, g ∈ addToGroups gs e m0 ∧ g.1 = m ∧ e2 ∈ g.2) ↔
      ((∃ g, g ∈ gs ∧ g.1 = m ∧ e2 ∈ g.2) ∨ (e2 = e ∧ m = m0)) := by
  induction gs with
  | nil =>
      unfold addToGroups
      constructor
      · rintro ⟨g, hg, hfst, he2⟩
        rw [List.mem_singleton] at hg
        subst hg
        rw [List.mem_singleton] at he2
        exact Or.inr ⟨he2, hfst.symm⟩
      · rintro (⟨g, hg, _, _⟩ | ⟨rfl, rfl⟩)
        · simp at hg
        · exact ⟨(m, [e2]), List.mem_singleton.mpr rfl, rfl, List.mem_singleton.mpr rfl⟩
  | cons g rest ih =>
      unfold addToGroups
      by_cases hgm : g.1 = m0
      · rw [if_pos hgm]
        constructor
        · rintro ⟨g2, hg2, hfst, he2⟩
          rcases List.mem_cons.mp hg2 with rfl | hg2r
          · rcases List.mem_append.mp he2 with hin | hsing
            · exact Or.inl ⟨g, List.mem_cons_self _ _, hfst, hin⟩
            · rw [List.mem_singleton] at hsing
              exact Or.inr ⟨hsing, by rw [← hfst]; exact hgm⟩
          · exact Or.inl ⟨g2, List.mem_cons_of_mem _ hg2r, hfst, he2⟩
        · rintro (⟨g2, hg2, hfst, he2⟩ | ⟨rfl, rfl⟩)
          · rcases List.mem_cons.mp hg2 with rfl | hg2r
            · exact ⟨(g2.1, g2.2 ++ [e]), List.mem_cons_self _ _, hfst,
                List.mem_append_left _ he2⟩
            · exact ⟨g2, List.mem_cons_of_mem _ hg2r, hfst, he2⟩
          · exact ⟨(g.1, g.2 ++ [e2]), List.mem_cons_self _ _, hgm,
              List.mem_append_right _ (List.mem_singleton.mpr rfl)⟩
      · rw [if_neg hgm]
        constructor
        · rintro ⟨g2, hg2, hfst, he2⟩
          rcases List.mem_cons.mp hg2 with rfl | hg2r
          · exact Or.inl ⟨g2, List.mem_cons_self _ _, hfst, he2⟩
          · rcases (ih).mp ⟨g2, hg2r, hfst, he2⟩ with ⟨g3, hg3, hfst3, he3⟩ | hpair
            · exact Or.inl ⟨g3, List.mem_cons_of_mem _ hg3, hfst3, he3⟩
            · exact Or.inr hpair
        · rintro (⟨g2, hg2, hfst, he2⟩ | hpair)
          · rcases List.mem_cons.mp hg2 with rfl | hg2r
            · exact ⟨g2, List.mem_cons_self _ _, hfst, he2⟩
            · obtain ⟨g3, hg3, hfst3, he3⟩ := (ih).mpr (Or.inl ⟨g2, hg2r, hfst, he2⟩)
              exact ⟨g3, List.mem_cons_of_mem _ hg3, hfst3, he3⟩
          · obtain ⟨g3, hg3, hfst3, he3⟩ := (ih).mpr (Or.inr hpair)
            exact ⟨g3, List.mem_cons_of_mem _ hg3, hfst3, he3⟩

/-! Preservation of the group-table invariant under the query-manager edits. -/

theorem memGroup_remove_entity (qm : QueryManager) (hg : GroupsWF qm) (e e2 : EntityId)
    (m : Mask) :
    memGroup (qm.remove_entity e) e2 m ↔ (e2 ≠ e ∧ memGroup qm e2 m) :=
  mem_removeFromGroups qm.query_entities qm.entities_query hg.group_mask hg.masks_nodup
    e e2 m

theorem memGroup_add_entity (qm : QueryManager) (e e2 : EntityId) (m0 m : Mask) :
    memGroup (qm.add_entity e m0) e2 m ↔ (memGroup qm e2 m ∨ (e2 = e ∧ m = m0)) :=
  mem_addToGroups qm.query_entities e m0 e2 m

theorem groupsWF_remove_entity (qm : QueryManager) (hg : GroupsWF qm) (e : EntityId) :
    GroupsWF (qm.remove_entity e) := by
  constructor
  · intro g2 hg2 x hx
    have hmem : memGroup (qm.remove_entity e) x g2.1 := ⟨g2, hg2, rfl, hx⟩
    obtain ⟨hxe, g3, hg3, hfst3, hx3⟩ := (memGroup_remove_entity qm hg e x g2.1).mp hmem
    have := hg.group_mask g3 hg3 x hx3
    show mapRemove qm.entities_query e x = some g2.1
    rw [mapRemove_ne _ _ _ hxe, this, hfst3]
  · intro x m hx
    have hxe : x ≠ e := by
      intro heq
      subst heq
      rw [show (qm.remove_entity x).entities_query x = none from mapRemove_self _ _] at hx
      exact Option.noConfusion hx
    have hfx : qm.entities_query x = some m := by
      rw [show (qm.remove_entity e).entities_query x = mapRemove qm.entities_query e x
        from rfl, mapRemove_ne _ _ _ hxe] at hx
      exact hx
    exact (memGroup_remove_entity qm hg e x m).mpr ⟨hxe, hg.group_exists x m hfx⟩
  · show ((removeFromGroups qm.query_entities e).map Prod.fst).Nodup
    rw [removeFromGroups_map_fst]
    exact hg.masks_nodup
  · intro g2 hg2
    obtain ⟨g3, hg3, _, hor⟩ := removeFromGroups_lists qm.query_entities e g2 hg2
    rcases hor with heq | heq
    · rw [heq]
      exact hg.lists_nodup g3 hg3
    · rw [heq]
      exact List.Nodup.filter _ (hg.lists_nodup g3 hg3)

theorem groupsWF_add_entity (qm : QueryManager) (hg : GroupsWF qm) (e : EntityId)
    (m0 : Mask) (hfresh : ∀ g, g ∈ qm.query_entities → e ∉ g.2) :
    GroupsWF (qm.add_entity e m0) := by
  constructor
  · intro g2 hg2 x hx
    show mapInsert qm.entities_query e m0 x = some g2.1
    rcases addToGroups_lists qm.query_entities e m0 g2 hg2 with hin | ⟨g3, hg3, hm3, heq⟩ | heq
    · have hxe : x ≠ e := fun h => hfresh g2 hin (h ▸ hx)
      rw [mapInsert_ne _ _ _ _ hxe]
      exact hg.group_mask g2 hin x hx
    · subst heq
      rcases List.mem_append.mp hx with hin2 | hsing
      · have hxe : x ≠ e := fun h => hfresh g3 hg3 (h ▸ hin2)
        rw [mapInsert_ne _ _ _ _ hxe]
        exact hg.group_mask g3 hg3 x hin2
      · rw [List.mem_singleton] at hsing
        subst hsing
        rw [mapInsert_self]
        show some m0 = some (g3.1, g3.2 ++ [x]).1
        rw [show (g3.1, g3.2 ++ [x]).1 = g3.1 from rfl, hm3]
    · subst heq
      rw [List.mem_singleton] at hx
      subst hx
      rw [mapInsert_self]
  · intro x m hx
    by_cases hxe : x = e
    · subst hxe
      rw [show (qm.add_entity x m0).entities_query x = mapInsert qm.entities_query x m0 x
        from rfl, mapInsert_self] at hx
      injection hx with hx
      exact (memGroup_add_entity qm x x m0 m).mpr (Or.inr ⟨rfl, hx.symm⟩)
    · rw [show (qm.add_entity e m0).entities_query x = mapInsert qm.entities_query e m0 x
        from rfl, mapInsert_ne _ _ _ _ hxe] at hx
      exact (memGroup_add_entity qm e x m0 m).mpr (Or.inl (hg.group_exists x m hx))
  · show ((addToGroups qm.query_entities e m0).map Prod.fst).Nodup
    by_cases hm : m0 ∈ qm.query_entities.map Prod.fst
    · rw [addToGroups_map_fst_mem _ _ _ hm]
      exact hg.masks_nodup
    · rw [addToGroups_map_fst_not_mem _ _ _ hm]
      simp [List.nodup_append, hg.masks_nodup, hm]
  · intro g2 hg2
    rcases addToGroups_lists qm.query_entities e m0 g2 hg2 with hin | ⟨g3, hg3, _, heq⟩ | heq
    · exact hg.lists_nodup g2 hin
    · subst heq
      show (g3.2 ++ [e]).Nodup
      simp [List.nodup_append, hg.lists_nodup g3 hg3, hfresh g3 hg3]
    · subst heq
      simp

/-! Pool operation characterizations. -/

theorem add_noop (m : ComponentManager α) (e : EntityId) (v : α) (h : m.has e = true) :
    m.add e v = m := by
  unfold ComponentManager.add
  rw [h]
  rfl

theorem has_add (m : ComponentManager α) (e x : EntityId) (v : α) :
    (m.add e v).has x = (m.has x || decide (x = e)) := by
  unfold ComponentManager.add
  cases hh : m.has e with
  | true =>
      by_cases hx : x = e
      · subst hx
        simp [hh]
      · simp [hx]
  | false =>
      rw [if_neg (by simp)]
      show (ComponentManager.has _ x) = _
      unfold ComponentManager.has
      dsimp only
      by_cases hx : x = e
      · subst hx
        rw [mapInsert_self]
        have h2 := has_none_index m x hh
        rw [h2]
        simp
      · rw [mapInsert_ne _ _ _ _ hx]
        simp [hx]

theorem borrow_add_self (m : ComponentManager α) (e : EntityId) (v : α)
    (h : m.has e = false) : (m.add e v).borrow_component_for_entity e = some v := by
  unfold ComponentManager.add
  rw [h, if_neg (by simp)]
  show ComponentManager.borrow_component_for_entity _ e = some v
  unfold ComponentManager.borrow_component_for_entity
  dsimp only
  rw [mapInsert_self]
  have hlen : (m.components ++ [v]).length - 1 = m.components.length := by simp
  rw [hlen]
  exact List.getElem?_concat_length _ _

theorem remove_eq (m : ComponentManager α) (e : EntityId) (ci : Nat) (lastOwner : EntityId)
    (hci : m.entity_to_component_index e = some ci)
    (hgl : m.entities_ids.getLast? = some lastOwner) :
    m.remove e = { components := swapRemove m.components ci,
                   entities_ids := swapRemove m.entities_ids ci,
                   entity_to_component_index :=
                     mapRemove (mapInsert (mapRemove m.entity_to_component_index e)
                       lastOwner ci) e } := by
  unfold ComponentManager.remove
  rw [hci, hgl]

theorem remove_noop (m : ComponentManager α) (e : EntityId) (h : m.has e = false) :
    m.remove e = m := by
  unfold ComponentManager.remove
  rw [has_none_index m e h]

theorem has_remove (m : ComponentManager α) (hwf : PoolWF m) (e x : EntityId) :
    (m.remove e).has x = (m.has x && !(decide (x = e))) := by
  cases hhas : m.has e with
  | false =>
      rw [remove_noop m e hhas]
      by_cases hx : x = e
      · subst hx
        rw [hhas]
        simp
      · simp [hx]
  | true =>
      obtain ⟨ci, hci⟩ := has_some_index m e hhas
      have hids_ci := (hwf.index_iff e ci).mp hci
      have hcilt := lt_length_of_getElem? hids_ci
      have hlast_lt : m.entities_ids.length - 1 < m.entities_ids.length := by omega
      obtain ⟨lastOwner, hlo⟩ : ∃ lo, m.entities_ids[m.entities_ids.length - 1]? = some lo :=
        ⟨m.entities_ids.get ⟨_, hlast_lt⟩, by simp [hlast_lt]⟩
      have hgl : m.entities_ids.getLast? = some lastOwner := by
        rw [List.getLast?_eq_getElem?]
        exact hlo
      rw [remove_eq m e ci lastOwner hci hgl]
      unfold ComponentManager.has
      dsimp only
      by_cases hx : x = e
      · subst hx
        rw [mapRemove_self]
        simp
      · rw [mapRemove_ne _ _ _ hx]
        by_cases hxl : x = lastOwner
        · subst hxl
          rw [mapInsert_self]
          have hml : m.entity_to_component_index x = some (m.entities_ids.length - 1) :=
            (hwf.index_iff _ _).mpr hlo
          rw [hml]
          simp [hx]
        · rw [mapInsert_ne _ _ _ _ hxl, mapRemove_ne _ _ _ hx]
          simp [hx]

theorem poolWF_remove (m : ComponentManager α) (hwf : PoolWF m) (e : EntityId) :
    PoolWF (m.remove e) := by
  cases hhas : m.has e with
  | false =>
      rw [remove_noop m e hhas]
      exact hwf
  | true =>
      obtain ⟨ci, hci⟩ := has_some_index m e hhas
      have hids_ci := (hwf.index_iff e ci).mp hci
      have hcilt := lt_length_of_getElem? hids_ci
      have hlast_lt : m.entities_ids.length - 1 < m.entities_ids.length := by omega
      obtain ⟨lastOwner, hlo⟩ : ∃ lo, m.entities_ids[m.entities_ids.length - 1]? = some lo :=
        ⟨m.entities_ids.get ⟨_, hlast_lt⟩, by simp [hlast_lt]⟩
      have hgl : m.entities_ids.getLast? = some lastOwner := by
        rw [List.getLast?_eq_getElem?]
        exact hlo
      have hml : m.entity_to_component_index lastOwner =
          some (m.entities_ids.length - 1) := (hwf.index_iff _ _).mpr hlo
      rw [remove_eq m e ci lastOwner hci hgl]
      constructor
      · show (swapRemove m.components ci).length = (swapRemove m.entities_ids ci).length
        rw [swapRemove_length, swapRemove_length, hwf.len_eq]
      · intro x i
        show mapRemove (mapInsert (mapRemove m.entity_to_component_index e) lastOwner ci) e x
            = some i ↔ (swapRemove m.entities_ids ci)[i]? = some x
        rw [swapRemove_getElem?]
        by_cases hx : x = e
        · subst hx
          rw [mapRemove_self]
          constructor
          · intro hcon
            exact Option.noConfusion hcon
          · intro hcon
            by_cases hi : i < m.entities_ids.length - 1
            · rw [if_pos hi] at hcon
              by_cases hic : i = ci
              · rw [if_pos hic] at hcon
                rw [hlo] at hcon
                injection hcon with hlo_e
                rw [hlo_e, hci] at hml
                injection hml with hml2
                omega
              · rw [if_neg hic] at hcon
                have h2 := (hwf.index_iff x i).mpr hcon
                rw [hci] at h2
                injection h2 with h3
                exact absurd h3.symm hic
            · rw [if_neg hi] at hcon
              exact Option.noConfusion hcon
        · rw [mapRemove_ne _ _ _ hx]
          by_cases hxl : x = lastOwner
          · subst hxl
            rw [mapInsert_self]
            have hcine : ci ≠ m.entities_ids.length - 1 := by
              intro heq
              rw [heq, hlo] at hids_ci
              injection hids_ci with hh
              exact hx hh
            have hcilt2 : ci < m.entities_ids.length - 1 := by omega
            constructor
            · intro hsome
              injection hsome with hieq
              subst hieq
              rw [if_pos hcilt2, if_pos rfl]
              exact hlo
            · intro hrhs
              by_cases hi : i < m.entities_ids.length - 1
              · rw [if_pos hi] at hrhs
                by_cases hic : i = ci
                · rw [hic]
                · rw [if_neg hic] at hrhs
                  have h2 := (hwf.index_iff x i).mpr hrhs
                  rw [hml] at h2
                  injection h2 with h3
                  omega
              · rw [if_neg hi] at hrhs
                exact Option.noConfusion hrhs
          · rw [mapInsert_ne _ _ _ _ hxl, mapRemove_ne _ _ _ hx]
            constructor
            · intro hsome
              have hrid := (hwf.index_iff x i).mp hsome
              have hilt := lt_length_of_getElem? hrid
              have hine : i ≠ m.entities_ids.length - 1 := by
                intro heq
                rw [heq, hlo] at hrid
                injection hrid with hh
                exact hxl hh.symm
              have hic : i ≠ ci := by
                intro heq
                rw [heq, hids_ci] at hrid
                injection hrid with hh
                exact hx hh.symm
              rw [if_pos (by omega), if_neg hic]
              exact hrid
            · intro hrhs
              by_cases hi : i < m.entities_ids.length - 1
              · rw [if_pos hi] at hrhs
                by_cases hic : i = ci
                · rw [if_pos hic] at hrhs
                  rw [hlo] at hrhs
                  injection hrhs with hh
                  exact absurd hh.symm hxl
                · rw [if_neg hic] at hrhs
                  exact (hwf.index_iff x i).mpr hrhs
              · rw [if_neg hi] at hrhs
                exact Option.noConfusion hrhs

theorem maskOf_none (qm : QueryManager) (e : EntityId)
    (h : qm.entities_query e = none) : maskOf qm e = 0 := by
  unfold maskOf QueryManager.get_bitmask_for_entity
  rw [h]

theorem maskOf_some (qm : QueryManager) (e : EntityId) (m : Mask)
    (h : qm.entities_query e = some m) : maskOf qm e = m := by
  unfold maskOf QueryManager.get_bitmask_for_entity
  rw [h]

/-- The successful run of `add_component_to_entity` written as an equation. -/
theorem add_ok_eq (em : EntityManager Nat) (t : TypeId) (e : EntityId) (v : Nat)
    (pool : ComponentManager Nat) (b : Mask)
    (hpool : em.components_managers t = some pool)
    (hb : em.query_manager.bit_mapping t = some b) :
    em.add_component_to_entity t e v = .ok
      { em with
          query_manager := (em.query_manager.remove_entity e).add_entity e
            (em.query_manager.get_bitmask_for_entity e ||| b),
          components_managers := mapInsert em.components_managers t (pool.add e v) } := by
  unfold EntityManager.add_component_to_entity EntityManager.has_component_manager
  rw [hpool]
  rw [if_neg (by simp)]
  dsimp only
  have hbit : (em.query_manager.remove_entity e).get_bit_for_component t = some b := hb
  rw [hbit]

/-- The successful run of the spec-modelled `remove_component` as an equation. -/
theorem remove_ok_eq (em : EntityManager Nat) (t : TypeId) (e : EntityId)
    (pool : ComponentManager Nat) (b : Mask)
    (hpool : em.components_managers t = some pool)
    (hb : em.query_manager.bit_mapping t = some b) :
    em.remove_component t e = .ok
      { em with
          query_manager := (em.query_manager.remove_entity e).add_entity e
            (em.query_manager.get_bitmask_for_entity e ^^^
              (em.query_manager.get_bitmask_for_entity e &&& b)),
          components_managers := mapInsert em.components_managers t (pool.remove e) } := by
  unfold EntityManager.remove_component EntityManager.has_component_manager
  rw [hpool]
  rw [if_neg (by simp)]
  dsimp only
  have hbit : em.query_manager.get_bit_for_component t = some b := hb
  rw [hbit]

/-! Preservation of the facade invariant along programs. -/

theorem wf_new : WF (EntityManager.new : EntityManager Nat) 0 := by
  refine ⟨?_, rfl, ?_, ?_, ?_, ?_, ?_, ?_, ?_⟩
  · show (1 : Nat) = 2 ^ 0 % u128Size
    unfold u128Size
    norm_num
  · intro t b h
    exact Option.noConfusion h
  · intro t u b h1 h2
    exact Option.noConfusion h1
  · intro t
    rfl
  · intro t pool h
    exact Option.noConfusion h
  · intro e m h
    exact Option.noConfusion h
  · intro t pool b e h
    exact Option.noConfusion h
  · refine ⟨?_, ?_, ?_, ?_⟩
    · intro g hg
      simp [EntityManager.new, QueryManager.new] at hg
    · intro e m h
      exact Option.noConfusion h
    · simp [EntityManager.new, QueryManager.new]
    · intro g hg
      simp [EntityManager.new, QueryManager.new] at hg

theorem wf_create (em : EntityManager Nat) (k : Nat) (hwf : WF em k) :
    WF (em.create_entity).2 k :=
  ⟨hwf.next_bit_eq, hwf.reusable_nil, hwf.bits_pow, hwf.bits_inj, hwf.mgr_iff_bit,
    hwf.pools_wf, hwf.mask_lt, hwf.mask_char,
    ⟨hwf.groups_wf.group_mask, hwf.groups_wf.group_exists, hwf.groups_wf.masks_nodup,
      hwf.groups_wf.lists_nodup⟩⟩

theorem wf_register (em : EntityManager Nat) (k : Nat) (t : TypeId) (hwf : WF em k)
    (hk : k < 128) :
    ∃ k2, k ≤ k2 ∧ k2 ≤ k + 1 ∧ WF (em.register_component t) k2 := by
  by_cases hreg : em.has_component_manager t = true
  · refine ⟨k, Nat.le_refl k, Nat.le_succ k, ?_⟩
    unfold EntityManager.register_component
    rw [hreg, if_pos rfl]
    exact hwf
  · have hmgr_none : em.components_managers t = none := by
      cases hcm : em.components_managers t with
      | none => rfl
      | some p =>
          exfalso
          apply hreg
          unfold EntityManager.has_component_manager
          rw [hcm]
          rfl
    have hbit_none : em.query_manager.bit_mapping t = none := by
      have h2 := hwf.mgr_iff_bit t
      rw [hmgr_none] at h2
      cases hb : em.query_manager.bit_mapping t with
      | none => rfl
      | some b => rw [hb] at h2; simp at h2
    have h2k : (2 : Nat) ^ k < u128Size := by
      unfold u128Size
      exact Nat.pow_lt_pow_right (by norm_num) hk
    have hnext : em.query_manager.next_bit = 2 ^ k := by
      rw [hwf.next_bit_eq, Nat.mod_eq_of_lt h2k]
    have hqreg : em.query_manager.register_component t =
        { query_entities := em.query_manager.query_entities,
          entities_query := em.query_manager.entities_query,
          bit_mapping := mapInsert em.query_manager.bit_mapping t (2 ^ k),
          reusable_bits := [],
          next_bit := 2 ^ k * 2 % u128Size,
          query_cache := em.query_manager.query_cache } := by
      unfold QueryManager.register_component
      rw [hwf.reusable_nil, hnext]
    have hemreg : em.register_component t =
        { entities := em.entities,
          components_managers := mapInsert em.components_managers t ComponentManager.new,
          query_manager :=
            { query_entities := em.query_manager.query_entities,
              entities_query := em.query_manager.entities_query,
              bit_mapping := mapInsert em.query_manager.bit_mapping t (2 ^ k),
              reusable_bits := [],
              next_bit := 2 ^ k * 2 % u128Size,
              query_cache := em.query_manager.query_cache } } := by
      unfold EntityManager.register_component
      rw [if_neg hreg, hqreg]
    refine ⟨k + 1, Nat.le_succ k, Nat.le_refl _, ?_⟩
    rw [hemreg]
    refine ⟨?_, ?_, ?_, ?_, ?_, ?_, ?_, ?_, ?_⟩
    · show 2 ^ k * 2 % u128Size = 2 ^ (k + 1) % u128Size
      rw [Nat.pow_succ]
    · rfl
    · intro t2 b hb
      dsimp only at hb
      by_cases ht2 : t2 = t
      · subst ht2
        rw [show (mapInsert em.query_manager.bit_mapping t2 (2 ^ k)) t2 = some (2 ^ k)
          from mapInsert_self _ _ _] at hb
        injection hb with hb
        exact ⟨k, Nat.lt_succ_self k, hb.symm⟩
      · rw [show (mapInsert em.query_manager.bit_mapping t (2 ^ k)) t2 =
          em.query_manager.bit_mapping t2 from mapInsert_ne _ _ _ _ ht2] at hb
        obtain ⟨i, hik, hbi⟩ := hwf.bits_pow t2 b hb
        exact ⟨i, Nat.lt_succ_of_lt hik, hbi⟩
    · intro t2 u b hb1 hb2
      dsimp only at hb1 hb2
      have hpow_ne : ∀ u2 b2, em.query_manager.bit_mapping u2 = some b2 → b2 ≠ 2 ^ k := by
        intro u2 b2 hb3 heq
        obtain ⟨i, hik, hbi⟩ := hwf.bits_pow u2 b2 hb3
        rw [hbi] at heq
        have := Nat.pow_right_injective (le_refl 2) heq
        omega
      by_cases ht2 : t2 = t <;> by_cases hu : u = t
      · rw [ht2, hu]
      · subst ht2
        rw [show (mapInsert em.query_manager.bit_mapping t2 (2 ^ k)) t2 = some (2 ^ k)
          from mapInsert_self _ _ _] at hb1
        rw [show (mapInsert em.query_manager.bit_mapping t2 (2 ^ k)) u =
          em.query_manager.bit_mapping u from mapInsert_ne _ _ _ _ hu] at hb2
        injection hb1 with hb1
        exact absurd hb1.symm (hpow_ne u b hb2)
      · subst hu
        rw [show (mapInsert em.query_manager.bit_mapping u (2 ^ k)) u = some (2 ^ k)
          from mapInsert_self _ _ _] at hb2
        rw [show (mapInsert em.query_manager.bit_mapping u (2 ^ k)) t2 =
          em.query_manager.bit_mapping t2 from mapInsert_ne _ _ _ _ ht2] at hb1
        injection hb2 with hb2
        exact absurd hb2.symm (hpow_ne t2 b hb1)
      · rw [show (mapInsert em.query_manager.bit_mapping t (2 ^ k)) t2 =
          em.query_manager.bit_mapping t2 from mapInsert_ne _ _ _ _ ht2] at hb1
        rw [show (mapInsert em.query_manager.bit_mapping t (2 ^ k)) u =
          em.query_manager.bit_mapping u from mapInsert_ne _ _ _ _ hu] at hb2
        exact hwf.bits_inj t2 u b hb1 hb2
    · intro t2
      dsimp only
      by_cases ht2 : t2 = t
      · subst ht2
        rw [show (mapInsert em.components_managers t2 ComponentManager.new) t2 =
          some ComponentManager.new from mapInsert_self _ _ _]
        rw [show (mapInsert em.query_manager.bit_mapping t2 (2 ^ k)) t2 = some (2 ^ k)
          from mapInsert_self _ _ _]
        rfl
      · rw [show (mapInsert em.components_managers t ComponentManager.new) t2 =
          em.components_managers t2 from mapInsert_ne _ _ _ _ ht2]
        rw [show (mapInsert em.query_manager.bit_mapping t (2 ^ k)) t2 =
          em.query_manager.bit_mapping t2 from mapInsert_ne _ _ _ _ ht2]
        exact hwf.mgr_iff_bit t2
    · intro t2 pool hp
      dsimp only at hp
      by_cases ht2 : t2 = t
      · subst ht2
        rw [show (mapInsert em.components_managers t2 ComponentManager.new) t2 =
          some ComponentManager.new from mapInsert_self _ _ _] at hp
        injection hp with hp
        rw [← hp]
        exact poolWF_new
      · rw [show (mapInsert em.components_managers t ComponentManager.new) t2 =
          em.components_managers t2 from mapInsert_ne _ _ _ _ ht2] at hp
        exact hwf.pools_wf t2 pool hp
    · intro e m h
      dsimp only at h
      exact Nat.lt_trans (hwf.mask_lt e m h)
        (Nat.pow_lt_pow_right (by norm_num) (Nat.lt_succ_self k))
    · intro t2 pool b e hp hb
      dsimp only at hp hb
      by_cases ht2 : t2 = t
      · subst ht2
        rw [show (mapInsert em.components_managers t2 ComponentManager.new) t2 =
          some ComponentManager.new from mapInsert_self _ _ _] at hp
        rw [show (mapInsert em.query_manager.bit_mapping t2 (2 ^ k)) t2 = some (2 ^ k)
          from mapInsert_self _ _ _] at hb
        injection hp with hp
        injection hb with hb
        subst hp
        subst hb
        constructor
        · intro hh
          exact absurd hh (by simp [ComponentManager.new, ComponentManager.has])
        · intro hh
          exfalso
          rw [land_pow_eq_iff] at hh
          have hmof : maskOf (QueryManager.mk em.query_manager.query_entities
              em.query_manager.entities_query
              (mapInsert em.query_manager.bit_mapping t2 (2 ^ k)) []
              (2 ^ k * 2 % u128Size) em.query_manager.query_cache) e =
              maskOf em.query_manager e := rfl
          cases hfe : em.query_manager.entities_query e with
          | none =>
              rw [hmof, maskOf_none _ _ hfe] at hh
              simp at hh
          | some mm =>
              rw [hmof, maskOf_some _ _ _ hfe,
                testBit_of_lt_pow mm k k (hwf.mask_lt e mm hfe) (Nat.le_refl k)] at hh
              exact Bool.noConfusion hh
      · rw [show (mapInsert em.components_managers t ComponentManager.new) t2 =
          em.components_managers t2 from mapInsert_ne _ _ _ _ ht2] at hp
        rw [show (mapInsert em.query_manager.bit_mapping t (2 ^ k)) t2 =
          em.query_manager.bit_mapping t2 from mapInsert_ne _ _ _ _ ht2] at hb
        exact hwf.mask_char t2 pool b e hp hb
    · exact ⟨hwf.groups_wf.group_mask, hwf.groups_wf.group_exists,
        hwf.groups_wf.masks_nodup, hwf.groups_wf.lists_nodup⟩

theorem maskOf_def (qm : QueryManager) (e : EntityId) :
    maskOf qm e = qm.get_bitmask_for_entity e := rfl

theorem maskOf_lt (em : EntityManager Nat) (k : Nat) (hwf : WF em k) (e : EntityId) :
    maskOf em.query_manager e < 2 ^ k := by
  unfold maskOf QueryManager.get_bitmask_for_entity
  cases hfe : em.query_manager.entities_query e with
  | none => exact pow_pos (by norm_num) k
  | some mm => exact hwf.mask_lt e mm hfe

theorem registered_of_add_ok (em : EntityManager Nat) (t : TypeId) (e : EntityId) (v : Nat)
    (em2 : EntityManager Nat) (hok : em.add_component_to_entity t e v = .ok em2) :
    ∃ pool, em.components_managers t = some pool := by
  cases hcm : em.components_managers t with
  | some p => exact ⟨p, rfl⟩
  | none =>
      exfalso
      unfold EntityManager.add_component_to_entity EntityManager.has_component_manager at hok
      rw [hcm] at hok
      simp at hok

theorem registered_of_remove_ok (em : EntityManager Nat) (t : TypeId) (e : EntityId)
    (em2 : EntityManager Nat) (hok : em.remove_component t e = .ok em2) :
    ∃ pool, em.components_managers t = some pool := by
  cases hcm : em.components_managers t with
  | some p => exact ⟨p, rfl⟩
  | none =>
      exfalso
      unfold EntityManager.remove_component EntityManager.has_component_manager at hok
      rw [hcm] at hok
      simp at hok

theorem wf_add (em : EntityManager Nat) (k : Nat) (t : TypeId) (e : EntityId) (v : Nat)
    (em2 : EntityManager Nat) (hwf : WF em k)
    (hok : em.add_component_to_entity t e v = .ok em2) : WF em2 k := by
  obtain ⟨pool, hpool⟩ := registered_of_add_ok em t e v em2 hok
  have hbs : (em.query_manager.bit_mapping t).isSome = true := by
    rw [← hwf.mgr_iff_bit t, hpool]
    rfl
  obtain ⟨b, hb⟩ := Option.isSome_iff_exists.mp hbs
  rw [add_ok_eq em t e v pool b hpool hb] at hok
  injection hok with hok
  subst hok
  obtain ⟨i, hik, hbi⟩ := hwf.bits_pow t b hb
  subst hbi
  have hfresh : ∀ g, g ∈ (em.query_manager.remove_entity e).query_entities → e ∉ g.2 := by
    intro g hg hmem
    obtain ⟨hne, _⟩ := (memGroup_remove_entity _ hwf.groups_wf e e g.1).mp ⟨g, hg, rfl, hmem⟩
    exact hne rfl
  generalize hM : em.query_manager.get_bitmask_for_entity e = M
  have hmlt : M < 2 ^ k := by
    rw [← hM]
    exact maskOf_lt em k hwf e
  have hMmask : maskOf em.query_manager e = M := hM
  have hfq : ∀ x, ((em.query_manager.remove_entity e).add_entity e
      (M ||| 2 ^ i)).entities_query x =
      mapInsert (mapRemove em.query_manager.entities_query e) e (M ||| 2 ^ i) x :=
    fun x => rfl
  have hbm2 : ∀ t2, ((em.query_manager.remove_entity e).add_entity e
      (M ||| 2 ^ i)).bit_mapping t2 = em.query_manager.bit_mapping t2 := fun _ => rfl
  have hmaskne : ∀ x, x ≠ e → maskOf ((em.query_manager.remove_entity e).add_entity e
      (M ||| 2 ^ i)) x = maskOf em.query_manager x := by
    intro x hx
    unfold maskOf QueryManager.get_bitmask_for_entity
    rw [hfq x, mapInsert_ne _ _ _ _ hx, mapRemove_ne _ _ _ hx]
  have hmaske : maskOf ((em.query_manager.remove_entity e).add_entity e
      (M ||| 2 ^ i)) e = M ||| 2 ^ i := by
    unfold maskOf QueryManager.get_bitmask_for_entity
    rw [hfq e, mapInsert_self]
  refine ⟨hwf.next_bit_eq, hwf.reusable_nil, hwf.bits_pow, hwf.bits_inj, ?_, ?_, ?_, ?_, ?_⟩
  · intro t2
    dsimp only
    rw [hbm2 t2]
    by_cases ht2 : t2 = t
    · subst ht2
      rw [show (mapInsert em.components_managers t2 (pool.add e v)) t2 =
        some (pool.add e v) from mapInsert_self _ _ _, hb]
      rfl
    · rw [show (mapInsert em.components_managers t (pool.add e v)) t2 =
        em.components_managers t2 from mapInsert_ne _ _ _ _ ht2]
      exact hwf.mgr_iff_bit t2
  · intro t2 pool2 hp2
    dsimp only at hp2
    by_cases ht2 : t2 = t
    · subst ht2
      rw [show (mapInsert em.components_managers t2 (pool.add e v)) t2 =
        some (pool.add e v) from mapInsert_self _ _ _] at hp2
      injection hp2 with hp2
      rw [← hp2]
      exact poolWF_add pool (hwf.pools_wf t2 pool hpool) e v
    · rw [show (mapInsert em.components_managers t (pool.add e v)) t2 =
        em.components_managers t2 from mapInsert_ne _ _ _ _ ht2] at hp2
      exact hwf.pools_wf t2 pool2 hp2
  · intro x m hm
    rw [show ((em.query_manager.remove_entity e).add_entity e
      (M ||| 2 ^ i)).entities_query x =
      mapInsert (mapRemove em.query_manager.entities_query e) e (M ||| 2 ^ i) x
      from rfl] at hm
    by_cases hx : x = e
    · subst hx
      rw [mapInsert_self] at hm
      injection hm with hm
      rw [← hm]
      exact Nat.or_lt_two_pow hmlt (Nat.pow_lt_pow_right (by norm_num) hik)
    · rw [mapInsert_ne _ _ _ _ hx, mapRemove_ne _ _ _ hx] at hm
      exact hwf.mask_lt x m hm
  · intro t2 pool2 b2 x hp2 hb2
    dsimp only at hp2 hb2
    rw [hbm2 t2] at hb2
    obtain ⟨i2, hik2, hbi2⟩ := hwf.bits_pow t2 b2 hb2
    subst hbi2
    rw [land_pow_eq_iff]
    by_cases hx : x = e
    · subst hx
      rw [hmaske]
      by_cases ht2 : t2 = t
      · subst ht2
        rw [hb] at hb2
        injection hb2 with hb2
        have hii : i2 = i := (Nat.pow_right_injective (le_refl 2) hb2).symm
        subst hii
        rw [show (mapInsert em.components_managers t2 (pool.add x v)) t2 =
          some (pool.add x v) from mapInsert_self _ _ _] at hp2
        injection hp2 with hp2
        rw [← hp2, has_add]
        simp [testBit_lor_pow_self]
      · have hne2 : (2 : Nat) ^ i2 ≠ 2 ^ i := by
          intro heq
          exact ht2 (hwf.bits_inj t2 t (2 ^ i) (heq ▸ hb2) hb)
        have hii : i ≠ i2 := by
          intro heq
          exact hne2 (by rw [heq])
        rw [testBit_lor_pow_ne _ _ _ hii]
        rw [show (mapInsert em.components_managers t (pool.add x v)) t2 =
          em.components_managers t2 from mapInsert_ne _ _ _ _ ht2] at hp2
        rw [← land_pow_eq_iff, ← hMmask]
        exact hwf.mask_char t2 pool2 (2 ^ i2) x hp2 hb2
    · rw [hmaskne x hx, ← land_pow_eq_iff]
      by_cases ht2 : t2 = t
      · subst ht2
        rw [show (mapInsert em.components_managers t2 (pool.add e v)) t2 =
          some (pool.add e v) from mapInsert_self _ _ _] at hp2
        injection hp2 with hp2
        rw [← hp2, has_add]
        rw [show (decide (x = e)) = false by simp [hx], Bool.or_false]
        exact hwf.mask_char t2 pool (2 ^ i2) x hpool hb2
      · rw [show (mapInsert em.components_managers t (pool.add e v)) t2 =
          em.components_managers t2 from mapInsert_ne _ _ _ _ ht2] at hp2
        exact hwf.mask_char t2 pool2 (2 ^ i2) x hp2 hb2
  · exact groupsWF_add_entity (em.query_manager.remove_entity e)
      (groupsWF_remove_entity em.query_manager hwf.groups_wf e) e
      (M ||| 2 ^ i) hfresh

theorem wf_remove_comp (em : EntityManager Nat) (k : Nat) (t : TypeId) (e : EntityId)
    (em2 : EntityManager Nat) (hwf : WF em k)
    (hok : em.remove_component t e = .ok em2) : WF em2 k := by
  obtain ⟨pool, hpool⟩ := registered_of_remove_ok em t e em2 hok
  have hbs : (em.query_manager.bit_mapping t).isSome = true := by
    rw [← hwf.mgr_iff_bit t, hpool]
    rfl
  obtain ⟨b, hb⟩ := Option.isSome_iff_exists.mp hbs
  rw [remove_ok_eq em t e pool b hpool hb] at hok
  injection hok with hok
  subst hok
  obtain ⟨i, hik, hbi⟩ := hwf.bits_pow t b hb
  subst hbi
  have hfresh : ∀ g, g ∈ (em.query_manager.remove_entity e).query_entities → e ∉ g.2 := by
    intro g hg hmem
    obtain ⟨hne, _⟩ := (memGroup_remove_entity _ hwf.groups_wf e e g.1).mp ⟨g, hg, rfl, hmem⟩
    exact hne rfl
  generalize hM : em.query_manager.get_bitmask_for_entity e = M
  have hmlt : M < 2 ^ k := by
    rw [← hM]
    exact maskOf_lt em k hwf e
  have hMmask : maskOf em.query_manager e = M := hM
  have hfq : ∀ x, ((em.query_manager.remove_entity e).add_entity e
      (M ^^^ (M &&& 2 ^ i))).entities_query x =
      mapInsert (mapRemove em.query_manager.entities_query e) e (M ^^^ (M &&& 2 ^ i)) x :=
    fun x => rfl
  have hbm2 : ∀ t2, ((em.query_manager.remove_entity e).add_entity e
      (M ^^^ (M &&& 2 ^ i))).bit_mapping t2 = em.query_manager.bit_mapping t2 :=
    fun _ => rfl
  have hmaskne : ∀ x, x ≠ e → maskOf ((em.query_manager.remove_entity e).add_entity e
      (M ^^^ (M &&& 2 ^ i))) x = maskOf em.query_manager x := by
    intro x hx
    unfold maskOf QueryManager.get_bitmask_for_entity
    rw [hfq x, mapInsert_ne _ _ _ _ hx, mapRemove_ne _ _ _ hx]
  have hmaske : maskOf ((em.query_manager.remove_entity e).add_entity e
      (M ^^^ (M &&& 2 ^ i))) e = M ^^^ (M &&& 2 ^ i) := by
    unfold maskOf QueryManager.get_bitmask_for_entity
    rw [hfq e, mapInsert_self]
  refine ⟨hwf.next_bit_eq, hwf.reusable_nil, hwf.bits_pow, hwf.bits_inj, ?_, ?_, ?_, ?_, ?_⟩
  · intro t2
    dsimp only
    rw [hbm2 t2]
    by_cases ht2 : t2 = t
    · subst ht2
      rw [show (mapInsert em.components_managers t2 (pool.remove e)) t2 =
        some (pool.remove e) from mapInsert_self _ _ _, hb]
      rfl
    · rw [show (mapInsert em.components_managers t (pool.remove e)) t2 =
        em.components_managers t2 from mapInsert_ne _ _ _ _ ht2]
      exact hwf.mgr_iff_bit t2
  · intro t2 pool2 hp2
    dsimp only at hp2
    by_cases ht2 : t2 = t
    · subst ht2
      rw [show (mapInsert em.components_managers t2 (pool.remove e)) t2 =
        some (pool.remove e) from mapInsert_self _ _ _] at hp2
      injection hp2 with hp2
      rw [← hp2]
      exact poolWF_remove pool (hwf.pools_wf t2 pool hpool) e
    · rw [show (mapInsert em.components_managers t (pool.remove e)) t2 =
        em.components_managers t2 from mapInsert_ne _ _ _ _ ht2] at hp2
      exact hwf.pools_wf t2 pool2 hp2
  · intro x m hm
    rw [show ((em.query_manager.remove_entity e).add_entity e
      (M ^^^ (M &&& 2 ^ i))).entities_query x =
      mapInsert (mapRemove em.query_manager.entities_query e) e (M ^^^ (M &&& 2 ^ i)) x
      from rfl] at hm
    by_cases hx : x = e
    · subst hx
      rw [mapInsert_self] at hm
      injection hm with hm
      rw [← hm]
      exact clear_pow_lt M i k hmlt
    · rw [mapInsert_ne _ _ _ _ hx, mapRemove_ne _ _ _ hx] at hm
      exact hwf.mask_lt x m hm
  · intro t2 pool2 b2 x hp2 hb2
    dsimp only at hp2 hb2
    rw [hbm2 t2] at hb2
    obtain ⟨i2, hik2, hbi2⟩ := hwf.bits_pow t2 b2 hb2
    subst hbi2
    rw [land_pow_eq_iff]
    by_cases hx : x = e
    · subst hx
      rw [hmaske]
      by_cases ht2 : t2 = t
      · subst ht2
        rw [hb] at hb2
        injection hb2 with hb2
        have hii : i2 = i := (Nat.pow_right_injective (le_refl 2) hb2).symm
        subst hii
        rw [show (mapInsert em.components_managers t2 (pool.remove x)) t2 =
          some (pool.remove x) from mapInsert_self _ _ _] at hp2
        injection hp2 with hp2
        rw [← hp2, has_remove pool (hwf.pools_wf t2 pool hpool) x x]
        rw [testBit_clear_pow_self]
        simp
      · have hne2 : (2 : Nat) ^ i2 ≠ 2 ^ i := by
          intro heq
          exact ht2 (hwf.bits_inj t2 t (2 ^ i) (heq ▸ hb2) hb)
        have hii : i ≠ i2 := by
          intro heq
          exact hne2 (by rw [heq])
        rw [testBit_clear_pow_ne _ _ _ hii]
        rw [show (mapInsert em.components_managers t (pool.remove x)) t2 =
          em.components_managers t2 from mapInsert_ne _ _ _ _ ht2] at hp2
        rw [← land_pow_eq_iff, ← hMmask]
        exact hwf.mask_char t2 pool2 (2 ^ i2) x hp2 hb2
    · rw [hmaskne x hx, ← land_pow_eq_iff]
      by_cases ht2 : t2 = t
      · subst ht2
        rw [show (mapInsert em.components_managers t2 (pool.remove e)) t2 =
          some (pool.remove e) from mapInsert_self _ _ _] at hp2
        injection hp2 with hp2
        rw [← hp2, has_remove pool (hwf.pools_wf t2 pool hpool) e x]
        rw [show (decide (x = e)) = false by simp [hx]]
        rw [show (!false) = true from rfl, Bool.and_true]
        exact hwf.mask_char t2 pool (2 ^ i2) x hpool hb2
      · rw [show (mapInsert em.components_managers t (pool.remove e)) t2 =
          em.components_managers t2 from mapInsert_ne _ _ _ _ ht2] at hp2
        exact hwf.mask_char t2 pool2 (2 ^ i2) x hp2 hb2
  · exact groupsWF_add_entity (em.query_manager.remove_entity e)
      (groupsWF_remove_entity em.query_manager hwf.groups_wf e) e
      (M ^^^ (M &&& 2 ^ i)) hfresh

theorem runProgFrom_wf : ∀ (ops : List Op) (em0 : EntityManager Nat) (k0 : Nat)
    (em : EntityManager Nat), WF em0 k0 → k0 + ops.countP Op.isRegister ≤ 128 →
    runProgFrom em0 ops = .ok em → ∃ k, k ≤ k0 + ops.countP Op.isRegister ∧ WF em k := by
  intro ops
  induction ops with
  | nil =>
      intro em0 k0 em hwf hc hrun
      unfold runProgFrom at hrun
      injection hrun with hrun
      subst hrun
      exact ⟨k0, by simp, hwf⟩
  | cons op rest ih =>
      intro em0 k0 em hwf hc hrun
      unfold runProgFrom at hrun
      cases hop : runOp em0 op with
      | error s =>
          rw [hop] at hrun
          exact absurd hrun (by simp)
      | ok em1 =>
          rw [hop] at hrun
          cases op with
          | registerComp t =>
              have hcount : (Op.registerComp t :: rest).countP Op.isRegister =
                  rest.countP Op.isRegister + 1 := by
                rw [List.countP_cons]
                simp [Op.isRegister]
              rw [hcount] at hc
              have hk0 : k0 < 128 := by omega
              have hem1 : em0.register_component t = em1 := by
                unfold runOp at hop
                injection hop
              obtain ⟨k2, hk2a, hk2b, hwf2⟩ := wf_register em0 k0 t hwf hk0
              rw [hem1] at hwf2
              obtain ⟨k3, hk3, hwf3⟩ := ih em1 k2 em hwf2 (by omega) hrun
              refine ⟨k3, ?_, hwf3⟩
              rw [hcount]
              omega
          | createEnt =>
              have hcount : (Op.createEnt :: rest).countP Op.isRegister =
                  rest.countP Op.isRegister := by
                rw [List.countP_cons]
                simp [Op.isRegister]
              rw [hcount] at hc
              have hem1 : (em0.create_entity).2 = em1 := by
                unfold runOp at hop
                injection hop
              have hwf1 : WF em1 k0 := hem1 ▸ wf_create em0 k0 hwf
              obtain ⟨k3, hk3, hwf3⟩ := ih em1 k0 em hwf1 hc hrun
              refine ⟨k3, ?_, hwf3⟩
              rw [hcount]
              exact hk3
          | addComp t e v =>
              have hcount : (Op.addComp t e v :: rest).countP Op.isRegister =
                  rest.countP Op.isRegister := by
                rw [List.countP_cons]
                simp [Op.isRegister]
              rw [hcount] at hc
              have hop2 : em0.add_component_to_entity t e v = .ok em1 := hop
              have hwf1 : WF em1 k0 := wf_add em0 k0 t e v em1 hwf hop2
              obtain ⟨k3, hk3, hwf3⟩ := ih em1 k0 em hwf1 hc hrun
              refine ⟨k3, ?_, hwf3⟩
              rw [hcount]
              exact hk3
          | removeComp t e =>
              have hcount : (Op.removeComp t e :: rest).countP Op.isRegister =
                  rest.countP Op.isRegister := by
                rw [List.countP_cons]
                simp [Op.isRegister]
              rw [hcount] at hc
              have hop2 : em0.remove_component t e = .ok em1 := hop
              have hwf1 : WF em1 k0 := wf_remove_comp em0 k0 t e em1 hwf hop2
              obtain ⟨k3, hk3, hwf3⟩ := ih em1 k0 em hwf1 hc hrun
              refine ⟨k3, ?_, hwf3⟩
              rw [hcount]
              exact hk3

theorem runProg_wf (prog : List Op) (em : EntityManager Nat)
    (hrun : runProg prog = .ok em) (hc : prog.countP Op.isRegister ≤ 128) :
    ∃ k, k ≤ 128 ∧ WF em k := by
  obtain ⟨k, hk, hwf⟩ := runProgFrom_wf prog EntityManager.new 0 em wf_new (by omega) hrun
  exact ⟨k, by omega, hwf⟩

/-! Exactness of the superset query under the invariant. -/

theorem mem_query_flatten (gs : List (Mask × List EntityId)) (mask : Mask) (e : EntityId) :
    (e ∈ ((gs.filter (fun g => decide (g.1 &&& mask = mask))).map Prod.snd).flatten) ↔
      ∃ g, g ∈ gs ∧ g.1 &&& mask = mask ∧ e ∈ g.2 := by
  rw [List.mem_flatten]
  constructor
  · rintro ⟨l2, hl2, hel⟩
    rw [List.mem_map] at hl2
    obtain ⟨g, hgf, rfl⟩ := hl2
    rw [List.mem_filter] at hgf
    exact ⟨g, hgf.1, by simpa using hgf.2, hel⟩
  · rintro ⟨g, hg, hmask, hel⟩
    exact ⟨g.2, List.mem_map.mpr ⟨g, List.mem_filter.mpr ⟨hg, by simpa using hmask⟩, rfl⟩,
      hel⟩

theorem query_flatten_nodup (qm : QueryManager) (hg : GroupsWF qm) (mask : Mask) :
    (((qm.query_entities.filter (fun g => decide (g.1 &&& mask = mask))).map
        Prod.snd).flatten).Nodup := by
  rw [List.nodup_flatten]
  constructor
  · intro l2 hl2
    rw [List.mem_map] at hl2
    obtain ⟨g, hgf, rfl⟩ := hl2
    exact hg.lists_nodup g (List.mem_filter.mp hgf).1
  · have hne : qm.query_entities.Pairwise (fun g g2 => g.1 ≠ g2.1) :=
      (List.pairwise_map).mp hg.masks_nodup
    have hdis : qm.query_entities.Pairwise (fun g g2 => List.Disjoint g.2 g2.2) := by
      refine hne.imp_of_mem ?_
      intro g g2 hmg hmg2 hne12 x hx1 hx2
      have h1 := hg.group_mask g hmg x hx1
      have h2 := hg.group_mask g2 hmg2 x hx2
      rw [h1] at h2
      injection h2 with h3
      exact hne12 h3
    rw [List.pairwise_map]
    exact hdis.sublist (List.filter_sublist _)

theorem memGroup_iff_entities_query (qm : QueryManager) (hg : GroupsWF qm) (e : EntityId)
    (m : Mask) : memGroup qm e m ↔ qm.entities_query e = some m := by
  constructor
  · rintro ⟨g, hgm, rfl, hel⟩
    exact hg.group_mask g hgm e hel
  · exact hg.group_exists e m

theorem query_exact_of_wf (em : EntityManager Nat) (k : Nat) (hwf : WF em k) (t : TypeId)
    (ht : em.has_component_manager t = true) :
    ∃ l, em.query_entities t = .ok (some l) ∧ l.Nodup ∧
      ∀ e, (e ∈ l ↔ holdsComponent em t e = true) := by
  have hms : (em.components_managers t).isSome = true := ht
  obtain ⟨pool, hpool⟩ := Option.isSome_iff_exists.mp hms
  have hbs : (em.query_manager.bit_mapping t).isSome = true := by
    rw [← hwf.mgr_iff_bit t]
    exact hms
  obtain ⟨b, hb⟩ := Option.isSome_iff_exists.mp hbs
  obtain ⟨i, hik, hbi⟩ := hwf.bits_pow t b hb
  subst hbi
  refine ⟨_, ?_, query_flatten_nodup em.query_manager hwf.groups_wf (2 ^ i), ?_⟩
  · unfold EntityManager.query_entities
    rw [ht, if_neg (by simp)]
    rw [show em.query_manager.get_bit_for_component t = some (2 ^ i) from hb]
    rfl
  · intro e
    rw [mem_query_flatten]
    constructor
    · rintro ⟨g, hgm, hmask, hel⟩
      have hfe := hwf.groups_wf.group_mask g hgm e hel
      have hmOf : maskOf em.query_manager e = g.1 := maskOf_some _ _ _ hfe
      unfold holdsComponent
      rw [hpool]
      rw [(hwf.mask_char t pool (2 ^ i) e hpool hb)]
      rw [hmOf]
      exact hmask
    · intro hh
      unfold holdsComponent at hh
      rw [hpool] at hh
      have hmask := (hwf.mask_char t pool (2 ^ i) e hpool hb).mp hh
      cases hfe : em.query_manager.entities_query e with
      | none =>
          exfalso
          rw [maskOf_none _ _ hfe, Nat.zero_and] at hmask
          exact absurd hmask.symm (by positivity)
      | some m =>
          rw [maskOf_some _ _ _ hfe] at hmask
          obtain ⟨g, hgm, hfst, hel⟩ := hwf.groups_wf.group_exists e m hfe
          exact ⟨g, hgm, by rw [hfst]; exact hmask, hel⟩

theorem query_pair_exact_of_wf (em : EntityManager Nat) (k : Nat) (hwf : WF em k)
    (tT tU : TypeId) (hT : em.has_component_manager tT = true)
    (hU : em.has_component_manager tU = true) :
    ∃ lp, em.query_entities_pair tT tU = .ok (some lp) ∧ lp.Nodup ∧
      ∀ e, (e ∈ lp ↔ (holdsComponent em tT e = true ∧ holdsComponent em tU e = true)) := by
  have hmsT : (em.components_managers tT).isSome = true := hT
  have hmsU : (em.components_managers tU).isSome = true := hU
  obtain ⟨poolT, hpoolT⟩ := Option.isSome_iff_exists.mp hmsT
  obtain ⟨poolU, hpoolU⟩ := Option.isSome_iff_exists.mp hmsU
  have hbsT : (em.query_manager.bit_mapping tT).isSome = true := by
    rw [← hwf.mgr_iff_bit tT]
    exact hmsT
  have hbsU : (em.query_manager.bit_mapping tU).isSome = true := by
    rw [← hwf.mgr_iff_bit tU]
    exact hmsU
  obtain ⟨bT, hbT⟩ := Option.isSome_iff_exists.mp hbsT
  obtain ⟨bU, hbU⟩ := Option.isSome_iff_exists.mp hbsU
  obtain ⟨iT, hikT, hbiT⟩ := hwf.bits_pow tT bT hbT
  obtain ⟨iU, hikU, hbiU⟩ := hwf.bits_pow tU bU hbU
  subst hbiT
  subst hbiU
  refine ⟨_, ?_,
    query_flatten_nodup em.query_manager hwf.groups_wf (2 ^ iT ||| 2 ^ iU), ?_⟩
  · unfold EntityManager.query_entities_pair
    rw [hT, hU]
    rw [if_neg (by simp)]
    rw [show em.query_manager.get_bit_for_component tT = some (2 ^ iT) from hbT,
      show em.query_manager.get_bit_for_component tU = some (2 ^ iU) from hbU]
    rfl
  · intro e
    rw [mem_query_flatten]
    have hcharT := hwf.mask_char tT poolT (2 ^ iT) e hpoolT hbT
    have hcharU := hwf.mask_char tU poolU (2 ^ iU) e hpoolU hbU
    constructor
    · rintro ⟨g, hgm, hmask, hel⟩
      have hfe := hwf.groups_wf.group_mask g hgm e hel
      have hmOf : maskOf em.query_manager e = g.1 := maskOf_some _ _ _ hfe
      rw [land_lor_eq_iff] at hmask
      constructor
      · unfold holdsComponent
        rw [hpoolT, hcharT, hmOf]
        exact hmask.1
      · unfold holdsComponent
        rw [hpoolU, hcharU, hmOf]
        exact hmask.2
    · rintro ⟨hhT, hhU⟩
      unfold holdsComponent at hhT hhU
      rw [hpoolT] at hhT
      rw [hpoolU] at hhU
      have hmaskT := hcharT.mp hhT
      have hmaskU := hcharU.mp hhU
      cases hfe : em.query_manager.entities_query e with
      | none =>
          exfalso
          rw [maskOf_none _ _ hfe, Nat.zero_and] at hmaskT
          exact absurd hmaskT.symm (by positivity)
      | some m =>
          rw [maskOf_some _ _ _ hfe] at hmaskT hmaskU
          obtain ⟨g, hgm, hfst, hel⟩ := hwf.groups_wf.group_exists e m hfe
          refine ⟨g, hgm, ?_, hel⟩
          rw [hfst, land_lor_eq_iff]
          exact ⟨hmaskT, hmaskU⟩

/-- C1 (confirmed): in any state built from the fresh facade by registration
(at most 128 type registrations, the bit budget), entity creation, component
adds and component removals (the latter modelled from the spec, no entity
destroyed), `query_entities` returns exactly the set of entity ids whose pool
holds the component type, without duplicates, and `query_entities_pair`
returns exactly the ids holding both types. -/
theorem C1_query_exactness (prog : List Op) (em : EntityManager Nat)
    (hrun : runProg prog = .ok em) (hcount : prog.countP Op.isRegister ≤ 128)
    (tT tU : TypeId) (hT : em.has_component_manager tT = true)
    (hU : em.has_component_manager tU = true) :
    (∃ l, em.query_entities tT = .ok (some l) ∧ l.Nodup ∧
      ∀ e, (e ∈ l ↔ holdsComponent em tT e = true)) ∧
    (∃ lp, em.query_entities_pair tT tU = .ok (some lp) ∧ lp.Nodup ∧
      ∀ e, (e ∈ lp ↔ (holdsComponent em tT e = true ∧ holdsComponent em tU e = true))) := by
  obtain ⟨k, _hk, hwf⟩ := runProg_wf prog em hrun hcount
  exact ⟨query_exact_of_wf em k hwf tT hT, query_pair_exact_of_wf em k hwf tT tU hT hU⟩

/-- Witness for C1 at a concrete program. -/
theorem C1_witness :
    runProg progC1 = .ok emC1 ∧ progC1.countP Op.isRegister ≤ 128 ∧
    emC1.has_component_manager 1 = true ∧ emC1.has_component_manager 2 = true ∧
    ((∃ l, emC1.query_entities 1 = .ok (some l) ∧ l.Nodup ∧
      ∀ e, (e ∈ l ↔ holdsComponent emC1 1 e = true)) ∧
    (∃ lp, emC1.query_entities_pair 1 2 = .ok (some lp) ∧ lp.Nodup ∧
      ∀ e, (e ∈ lp ↔ (holdsComponent emC1 1 e = true ∧ holdsComponent emC1 2 e = true)))) :=
  ⟨rfl, by decide, rfl, rfl, C1_query_exactness progC1 emC1 rfl (by decide) 1 2 rfl rfl⟩

/-- C5 (confirmed): a duplicate add is idempotent at the facade — after
adding `v1` and then `v2` for the same entity and type, the stored value is
still `v1` (the pool silently no-ops the second write), the entity mask is
unchanged by the second add (OR is idempotent, no double toggle), and the
entity sits in groups of exactly the same masks as before the second add. -/
theorem C5_duplicate_add_first_write_wins (prog : List Op) (em0 em1 em2 : EntityManager Nat)
    (t : TypeId) (e : EntityId) (v1 v2 : Nat)
    (hrun : runProg prog = .ok em0) (hcount : prog.countP Op.isRegister ≤ 128)
    (_hreg : em0.has_component_manager t = true)
    (hnot : holdsComponent em0 t e = false)
    (_hne : v1 ≠ v2)
    (h1 : em0.add_component_to_entity t e v1 = .ok em1)
    (h2 : em1.add_component_to_entity t e v2 = .ok em2) :
    em2.borrow_component_for_entity t e = .ok (some v1) ∧
    em2.query_manager.get_bitmask_for_entity e =
      em1.query_manager.get_bitmask_for_entity e ∧
    (∀ m, memGroup em2.query_manager e m ↔ memGroup em1.query_manager e m) := by
  obtain ⟨k, _hk, hwf0⟩ := runProg_wf prog em0 hrun hcount
  have hwf1 : WF em1 k := wf_add em0 k t e v1 em1 hwf0 h1
  have hwf2 : WF em2 k := wf_add em1 k t e v2 em2 hwf1 h2
  obtain ⟨pool0, hpool0⟩ := registered_of_add_ok em0 t e v1 em1 h1
  have hnot0 : pool0.has e = false := by
    unfold holdsComponent at hnot
    rw [hpool0] at hnot
    exact hnot
  have hb0s : (em0.query_manager.bit_mapping t).isSome = true := by
    rw [← hwf0.mgr_iff_bit t, hpool0]
    rfl
  obtain ⟨b, hb0⟩ := Option.isSome_iff_exists.mp hb0s
  obtain ⟨M0, hM⟩ : ∃ M0, em0.query_manager.get_bitmask_for_entity e = M0 := ⟨_, rfl⟩
  rw [add_ok_eq em0 t e v1 pool0 b hpool0 hb0, hM] at h1
  injection h1 with h1
  have hq1 : em1.query_manager =
      (em0.query_manager.remove_entity e).add_entity e (M0 ||| b) :=
    congrArg EntityManager.query_manager h1.symm
  have hcm1 : em1.components_managers =
      mapInsert em0.components_managers t (pool0.add e v1) :=
    congrArg EntityManager.components_managers h1.symm
  have hpool1 : em1.components_managers t = some (pool0.add e v1) := by
    rw [hcm1]
    exact mapInsert_self _ _ _
  have hb1 : em1.query_manager.bit_mapping t = some b := by
    rw [hq1]
    exact hb0
  have hq1e : em1.query_manager.entities_query e = some (M0 ||| b) := by
    rw [hq1]
    show mapInsert (mapRemove em0.query_manager.entities_query e) e (M0 ||| b) e = _
    rw [mapInsert_self]
  have hg1 : em1.query_manager.get_bitmask_for_entity e = M0 ||| b := by
    unfold QueryManager.get_bitmask_for_entity
    rw [hq1e]
  rw [add_ok_eq em1 t e v2 (pool0.add e v1) b hpool1 hb1, hg1, Nat.or_assoc,
    Nat.or_self] at h2
  injection h2 with h2
  subst h2
  have hhas1 : (pool0.add e v1).has e = true := by
    rw [has_add]
    simp
  have hq2e : ((em1.query_manager.remove_entity e).add_entity e
      (M0 ||| b)).entities_query e = some (M0 ||| b) := by
    show mapInsert (mapRemove em1.query_manager.entities_query e) e (M0 ||| b) e = _
    rw [mapInsert_self]
  refine ⟨?_, ?_, ?_⟩
  · show EntityManager.borrow_component_for_entity _ t e = .ok (some v1)
    unfold EntityManager.borrow_component_for_entity
    dsimp only
    rw [hcm1, show mapInsert (mapInsert em0.components_managers t (pool0.add e v1)) t
      ((pool0.add e v1).add e v2) t = some ((pool0.add e v1).add e v2)
      from mapInsert_self _ _ _]
    rw [add_noop _ _ _ hhas1]
    dsimp only
    rw [borrow_add_self pool0 e v1 hnot0]
  · show QueryManager.get_bitmask_for_entity _ e = _
    rw [hg1]
    unfold QueryManager.get_bitmask_for_entity
    dsimp only
    rw [hq2e]
  · intro m
    rw [memGroup_iff_entities_query _ hwf2.groups_wf, memGroup_iff_entities_query _
      hwf1.groups_wf]
    dsimp only
    rw [hq2e, hq1e]

/-- Witness for C5 at a concrete input. -/
theorem C5_witness :
    runProg progC5 = .ok emC5 ∧ progC5.countP Op.isRegister ≤ 128 ∧
    emC5.has_component_manager 1 = true ∧ holdsComponent emC5 1 0 = false ∧
    (3 : Nat) ≠ 4 ∧
    emC5.add_component_to_entity 1 0 3 = .ok emC5a ∧
    emC5a.add_component_to_entity 1 0 4 = .ok emC5b ∧
    (emC5b.borrow_component_for_entity 1 0 = .ok (some 3) ∧
      emC5b.query_manager.get_bitmask_for_entity 0 =
        emC5a.query_manager.get_bitmask_for_entity 0 ∧
      (∀ m, memGroup emC5b.query_manager 0 m ↔ memGroup emC5a.query_manager 0 m)) :=
  ⟨rfl, by decide, rfl, rfl, by decide, rfl, rfl,
    C5_duplicate_add_first_write_wins progC5 emC5 emC5a emC5b 1 0 3 4 rfl (by decide)
      rfl rfl (by decide) rfl rfl⟩

/-- Witness for C3 at a concrete input. -/
theorem C3_witness :
    emC3.entities.has 0 = true ∧
    (((emC3.destroy_entity 0).create_entity).1 = 0 ∧
      ((emC3.destroy_entity 0).create_entity).2.components_managers =
        emC3.components_managers ∧
      ((emC3.destroy_entity 0).create_entity).2.query_manager = emC3.query_manager ∧
      (emC3.destroy_entity 0).entities.has 0 = false ∧
      ((emC3.destroy_entity 0).create_entity).2.entities.has 0 = true ∧
      (∀ t eid, ((emC3.destroy_entity 0).create_entity).2.borrow_component_for_entity t eid =
          emC3.borrow_component_for_entity t eid) ∧
      (∀ t, ((emC3.destroy_entity 0).create_entity).2.query_entities t =
          emC3.query_entities t) ∧
      (∀ tT tU, ((emC3.destroy_entity 0).create_entity).2.query_entities_pair tT tU =
          emC3.query_entities_pair tT tU)) :=
  ⟨rfl, C3_destroy_then_recycle_preserves_residue emC3 0 rfl⟩

end ECS
